import Mathlib

/-!
Verification development for the dialogue-management core of the agents-aea
repository (`aea/helpers/dialogue/base.py`).

The Python classes `DialogueLabel`, `Dialogue` and `Dialogues` are shallowly
embedded below.  Python exceptions are modelled by the `PyErr` type and
`Except` results; in-place mutation of the registry is modelled by explicit
state passing, with partially mutated states returned alongside errors at the
points where the Python code would have mutated before raising.  Addresses,
references and nonces are strings; performatives, roles and end states are
opaque tokens modelled as natural numbers (the core only compares them for
equality and membership).
-/

/-- The exception kinds the embedded code can raise: `InvalidDialogueMessage`
(raised by `Dialogue.update`), `AssertionError` (failed `assert` statements),
`AttributeError` (attribute access on Python `None`), and `SyntaxError`
(raised by `Dialogues.create` on an invalid initial message). -/
inductive PyErr where
  | invalidMessage (text : String)
  | assertionError (text : String)
  | attributeError (text : String)
  | syntaxError (text : String)
deriving DecidableEq, Repr

/-- The message interface the core consumes (`aea.protocols.base.Message` is
external to the core): `dialogue_reference`, `message_id`, `target`,
`performative`, `sender`, `to`.  The `sender` field is `Option`al because the
core tests `has_sender` and assigns it when unset; `to` is modelled as always
present (`Dialogues.update` asserts `has_to` on ingress and the core sets it
on egress). -/
structure Message where
  dialogue_reference : String × String
  message_id : Nat
  target : Nat
  performative : Nat
  sender : Option String
  «to» : String
deriving DecidableEq, Repr

/-- The dialogue label: a dialogue reference pair plus the opponent address
and the starter address.  Equality is componentwise, as in
`DialogueLabel.__eq__`. -/
structure DialogueLabel where
  dialogue_reference : String × String
  dialogue_opponent_addr : String
  dialogue_starter_addr : String
deriving DecidableEq, Repr

/-- The `UNASSIGNED_DIALOGUE_REFERENCE` sentinel. -/
def UNASSIGNED_DIALOGUE_REFERENCE : String := ""

/-- The `STARTING_MESSAGE_ID` constant. -/
def STARTING_MESSAGE_ID : Nat := 1

/-- The `STARTING_TARGET` constant. -/
def STARTING_TARGET : Nat := 0

/-- First component of the dialogue reference. -/
def DialogueLabel.dialogue_starter_reference (lbl : DialogueLabel) : String :=
  lbl.dialogue_reference.1

/-- Second component of the dialogue reference. -/
def DialogueLabel.dialogue_responder_reference (lbl : DialogueLabel) : String :=
  lbl.dialogue_reference.2

/-- `DialogueLabel.get_incomplete_version`: replace the responder reference by
the unassigned sentinel. -/
def DialogueLabel.get_incomplete_version (lbl : DialogueLabel) : DialogueLabel :=
  ⟨(lbl.dialogue_starter_reference, UNASSIGNED_DIALOGUE_REFERENCE),
    lbl.dialogue_opponent_addr, lbl.dialogue_starter_addr⟩

/-- The protocol-descriptor bundle a concrete protocol supplies to the core:
initial performatives, the valid-replies table (a dict keyed on
performatives), the protocol-specific `is_valid` hook, and the
role-from-first-message resolver.  Roles are opaque tokens. -/
structure ProtocolRules where
  initial_performatives : List Nat
  valid_replies : List (Nat × List Nat)
  is_valid : Message → Bool × String
  role_from_first_message : Message → Nat

/-- The state of one `Dialogue` object: the fields set by
`Dialogue.__init__` plus the two message logs. -/
structure Dialogue where
  agent_address : String
  incomplete_dialogue_label : DialogueLabel
  dialogue_label : DialogueLabel
  role : Nat
  is_self_initiated : Bool
  outgoing_messages : List Message
  incoming_messages : List Message
  rules : ProtocolRules

/-- `Dialogue.__init__`.  The source computes `_is_self_initiated` with the
Python identity comparison `dialogue_opponent_addr is not dialogue_starter_addr`;
here it is modelled by value inequality of the two addresses, which agrees
with the identity comparison except when equal address strings are held as
distinct objects — that discrepancy is analysed separately on the
`PyDialogueLabel` model below. -/
def Dialogue.init (dialogue_label : DialogueLabel) (agent_address : String)
    (role : Nat) (rules : ProtocolRules) : Dialogue :=
  { agent_address := agent_address
    incomplete_dialogue_label := dialogue_label.get_incomplete_version
    dialogue_label := dialogue_label
    role := role
    is_self_initiated :=
      decide (dialogue_label.dialogue_opponent_addr ≠ dialogue_label.dialogue_starter_addr)
    outgoing_messages := []
    incoming_messages := []
    rules := rules }

/-- `Dialogue.last_incoming_message`. -/
def Dialogue.last_incoming_message (d : Dialogue) : Option Message :=
  d.incoming_messages.getLast?

/-- `Dialogue.last_outgoing_message`. -/
def Dialogue.last_outgoing_message (d : Dialogue) : Option Message :=
  d.outgoing_messages.getLast?

/-- `Dialogue.last_message`: of the two log tails, the one with the greater
`message_id` (the outgoing one only if strictly greater, as in the source). -/
def Dialogue.last_message (d : Dialogue) : Option Message :=
  match d.last_incoming_message, d.last_outgoing_message with
  | some li, some lo => some (if lo.message_id > li.message_id then lo else li)
  | some li, none => some li
  | none, some lo => some lo
  | none, none => none

/-- The concatenation `self._outgoing_messages + self._incoming_messages`
used by `Dialogue.get_message`. -/
def Dialogue.all_messages (d : Dialogue) : List Message :=
  d.outgoing_messages ++ d.incoming_messages

/-- `Dialogue.get_message`: two id-range asserts, then a linear search.  The
Python function implicitly returns `None` when no message has the requested
id, hence the `Option` in the success type. -/
def Dialogue.get_message (d : Dialogue) (message_id : Nat) :
    Except PyErr (Option Message) :=
  if message_id < 1 then
    .error (.assertionError ("message_id must be greater than or equal to 1."))
  else if (d.all_messages).length < message_id then
    .error (.assertionError ("This dialogue does not have a message with that id."))
  else
    .ok ((d.all_messages).find? (fun mm => mm.message_id == message_id))

/-- `Dialogue.is_empty`. -/
def Dialogue.is_empty (d : Dialogue) : Bool :=
  d.outgoing_messages.isEmpty && d.incoming_messages.isEmpty

/-- `Dialogue.is_message_by_self`. -/
def Dialogue.is_message_by_self (d : Dialogue) (m : Message) : Bool :=
  m.sender == some d.agent_address

/-- `Dialogue.is_message_by_other`. -/
def Dialogue.is_message_by_other (d : Dialogue) (m : Message) : Bool :=
  ! d.is_message_by_self m

/-- The `if not message.has_sender: message.sender = self.agent_address`
prelude of `Dialogue.update`. -/
def Dialogue.resolve_sender (d : Dialogue) (m : Message) : Message :=
  if m.sender.isSome then m else { m with sender := some d.agent_address }

/-- The opponent reconstruction used in `Dialogue.is_belonging_to_dialogue`:
`message.to` for a message by self, `message.sender` otherwise (the sender is
known to be set at every call site, the default is never used). -/
def Dialogue.message_opponent (d : Dialogue) (m : Message) : String :=
  if d.is_message_by_self m then m.«to» else m.sender.getD ""

/-- `Dialogue.is_belonging_to_dialogue`: reconstruct the candidate label and
test membership in `dialogue_labels` (the pair current label / incomplete
label). -/
def Dialogue.is_belonging_to_dialogue (d : Dialogue) (m : Message) : Bool :=
  let opponent := d.message_opponent m
  if d.is_self_initiated then
    let lbl : DialogueLabel :=
      ⟨(m.dialogue_reference.1, UNASSIGNED_DIALOGUE_REFERENCE), opponent, d.agent_address⟩
    decide (lbl = d.dialogue_label ∨ lbl = d.incomplete_dialogue_label)
  else
    let lbl : DialogueLabel := ⟨m.dialogue_reference, opponent, opponent⟩
    decide (lbl = d.dialogue_label ∨ lbl = d.incomplete_dialogue_label)

/-- `Dialogue.get_valid_replies`: asserted dict lookup in the valid-replies
table. -/
def Dialogue.get_valid_replies (rules : ProtocolRules) (performative : Nat) :
    Except PyErr (List Nat) :=
  match rules.valid_replies.lookup performative with
  | some replies => .ok replies
  | none => .error (.assertionError ("this performative is not supported"))

/-- `Dialogue._basic_validation`, branch for branch.  The `Except` layer
carries the failures the Python code would raise while validating (the
asserted lookups in `get_message` and `get_valid_replies`, and the attribute
access on `None` when no message carries the target id). -/
def Dialogue.basic_validation (d : Dialogue) (m : Message) :
    Except PyErr (Bool × String) :=
  let dialogue_reference := m.dialogue_reference
  match d.last_message with
  | none =>
    if dialogue_reference.1 ≠ d.dialogue_label.dialogue_reference.1 then
      .ok (false, "Invalid dialogue_reference part 0.")
    else if m.message_id ≠ STARTING_MESSAGE_ID then
      .ok (false, "Invalid message_id for an initial message.")
    else if m.target ≠ STARTING_TARGET then
      .ok (false, "Invalid target for an initial message.")
    else if ¬ (m.performative ∈ d.rules.initial_performatives) then
      .ok (false, "Invalid initial performative.")
    else
      .ok (true, "The message passes basic validation.")
  | some last =>
    if dialogue_reference.1 ≠ d.dialogue_label.dialogue_reference.1 then
      .ok (false, "Invalid dialogue_reference part 0.")
    else if m.message_id ≠ last.message_id + 1 then
      .ok (false, "Invalid message_id: expected last message id plus one.")
    else if m.target < 1 then
      .ok (false, "Invalid target: expected a value greater than or equal to 1.")
    else if last.message_id < m.target then
      .ok (false, "Invalid target: expected a value less than or equal to the last message id.")
    else
      match d.get_message m.target with
      | .error e => .error e
      | .ok none => .error (.attributeError ("target message is None"))
      | .ok (some target_message) =>
        match Dialogue.get_valid_replies d.rules target_message.performative with
        | .error e => .error e
        | .ok replies =>
          if ¬ (m.performative ∈ replies) then
            .ok (false, "Invalid performative: not a valid reply to the target message.")
          else
            .ok (true, "The message passes basic validation.")

/-- `Dialogue._additional_validation`: a non-initial message must target the
message strictly before it. -/
def Dialogue.additional_validation (d : Dialogue) (m : Message) : Bool × String :=
  match d.last_message with
  | none => (true, "The message passes additional validation.")
  | some last =>
    if m.target ≠ last.target + 1 then
      (false, "Invalid target: expected the last target plus one.")
    else
      (true, "The message passes additional validation.")

/-- `Dialogue.is_valid_next_message`: basic, then additional, then the
protocol-specific hook, short-circuiting on the first failure. -/
def Dialogue.is_valid_next_message (d : Dialogue) (m : Message) :
    Except PyErr (Bool × String) :=
  match d.basic_validation m with
  | .error e => .error e
  | .ok (false, text) => .ok (false, text)
  | .ok (true, _) =>
    match d.additional_validation m with
    | (false, text) => .ok (false, text)
    | (true, _) =>
      match d.rules.is_valid m with
      | (false, text) => .ok (false, text)
      | (true, _) => .ok (true, "Message is valid with respect to this dialogue.")

/-- `Dialogue.update`: resolve the sender, check belonging, validate, then
append to the outgoing or incoming log. -/
def Dialogue.update (d : Dialogue) (m0 : Message) : Except PyErr Dialogue :=
  let m := d.resolve_sender m0
  if ¬ d.is_belonging_to_dialogue m then
    .error (.invalidMessage ("message does not belong to this dialogue."))
  else
    match d.is_valid_next_message m with
    | .error e => .error e
    | .ok (false, text) => .error (.invalidMessage text)
    | .ok (true, _) =>
      if d.is_message_by_self m then
        .ok { d with outgoing_messages := d.outgoing_messages ++ [m] }
      else
        .ok { d with incoming_messages := d.incoming_messages ++ [m] }

/-- `Dialogue.reply`: requires a non-empty dialogue, constructs the reply
message (next id, target at the target message, the dialogue's reference,
sender this agent, recipient the opponent) and feeds it through
`Dialogue.update`. -/
def Dialogue.reply (d : Dialogue) (target_message : Message) (performative : Nat) :
    Except PyErr (Dialogue × Message) :=
  match d.last_message with
  | none => .error (.assertionError ("Cannot reply in an empty dialogue!"))
  | some last =>
    let reply_message : Message :=
      { dialogue_reference := d.dialogue_label.dialogue_reference
        message_id := last.message_id + 1
        target := target_message.message_id
        performative := performative
        sender := some d.agent_address
        «to» := d.dialogue_label.dialogue_opponent_addr }
    match d.update reply_message with
    | .error e => .error e
    | .ok d' => .ok (d', reply_message)

/-- `Dialogue.update_dialogue_label`: only an incomplete current label may be
replaced, and only by a complete one. -/
def Dialogue.update_dialogue_label (d : Dialogue) (final_dialogue_label : DialogueLabel) :
    Except PyErr Dialogue :=
  if d.dialogue_label.dialogue_reference.2 = UNASSIGNED_DIALOGUE_REFERENCE
      ∧ final_dialogue_label.dialogue_reference.2 ≠ UNASSIGNED_DIALOGUE_REFERENCE then
    .ok { d with dialogue_label := final_dialogue_label }
  else
    .error (.assertionError ("Dialogue label cannot be updated."))

/-- Python-dict lookup on an association list (first matching key wins; a
well-formed dict has distinct keys, making this the unique binding). -/
def dictGet {κ α : Type} [DecidableEq κ] : List (κ × α) → κ → Option α
  | [], _ => none
  | (k', v) :: rest, k => if k' = k then some v else dictGet rest k

/-- Python-dict write `d[k] = v`: replace the binding in place if the key is
present, otherwise append it. -/
def dictInsert {κ α : Type} [DecidableEq κ] : List (κ × α) → κ → α → List (κ × α)
  | [], k, v => [(k, v)]
  | (k', v') :: rest, k, v =>
    if k' = k then (k, v) :: rest else (k', v') :: dictInsert rest k v

/-- Python-dict `d.pop(k)`: drop the (first) binding of `k`. -/
def dictRemove {κ α : Type} [DecidableEq κ] : List (κ × α) → κ → List (κ × α)
  | [], _ => []
  | (k', v') :: rest, k =>
    if k' = k then rest else (k', v') :: dictRemove rest k

/-- The state of one `Dialogues` registry: the owning agent's address, the
label-to-dialogue dict, the incomplete-to-complete promotion dict, and the
protocol descriptor (the `message_class` / `dialogue_class` /
`role_from_first_message` wiring of `Dialogues.__init__`). -/
structure Dialogues where
  agent_address : String
  dialogues_by_dialogue_label : List (DialogueLabel × Dialogue)
  incomplete_to_complete_dialogue_labels : List (DialogueLabel × DialogueLabel)
  rules : ProtocolRules

/-- A freshly constructed registry: both dicts empty. -/
def Dialogues.init (agent_address : String) (rules : ProtocolRules) : Dialogues :=
  ⟨agent_address, [], [], rules⟩

/-- `Dialogues.is_message_by_self`. -/
def Dialogues.is_message_by_self (st : Dialogues) (m : Message) : Bool :=
  m.sender == some st.agent_address

/-- `Dialogues.new_self_initiated_dialogue_reference`, with the generated
nonce supplied as an argument (the source draws it from `secrets.token_hex`,
a nondeterministic oracle). -/
def Dialogues.new_self_initiated_dialogue_reference (nonce : String) : String × String :=
  (nonce, UNASSIGNED_DIALOGUE_REFERENCE)

/-- `Dialogues.get_latest_label`: promote through the
incomplete-to-complete dict, defaulting to the label itself. -/
def Dialogues.get_latest_label (st : Dialogues) (dialogue_label : DialogueLabel) :
    DialogueLabel :=
  (dictGet st.incomplete_to_complete_dialogue_labels dialogue_label).getD dialogue_label

/-- `Dialogues.get_dialogue_from_label`. -/
def Dialogues.get_dialogue_from_label (st : Dialogues) (dialogue_label : DialogueLabel) :
    Option Dialogue :=
  dictGet st.dialogues_by_dialogue_label dialogue_label

/-- `Dialogues.get_dialogue`: reconstruct the self-initiated candidate label
`(reference, opponent, agent)` and the other-initiated candidate label
`(reference, opponent, message.to)`, promote both through
`get_latest_label`, and return the first hit (self-initiated preferred).
Accessing `message.sender` on a message without a sender raises. -/
def Dialogues.get_dialogue (st : Dialogues) (m : Message) :
    Except PyErr (Option Dialogue) :=
  match m.sender with
  | none => .error (.assertionError ("sender is not set"))
  | some s =>
    let opponent := if s = st.agent_address then m.«to» else s
    let self_initiated_dialogue_label : DialogueLabel :=
      ⟨m.dialogue_reference, opponent, st.agent_address⟩
    let other_initiated_dialogue_label : DialogueLabel :=
      ⟨m.dialogue_reference, opponent, m.«to»⟩
    let self_latest := st.get_latest_label self_initiated_dialogue_label
    let other_latest := st.get_latest_label other_initiated_dialogue_label
    match st.get_dialogue_from_label self_latest with
    | some d => .ok (some d)
    | none => .ok (st.get_dialogue_from_label other_latest)

/-- `Dialogues._complete_dialogue_reference`: for an inbound message with a
complete reference, if the matching incomplete self-initiated label is live
and not yet promoted, pop it, relabel the dialogue, reinsert it under the
complete label and record the promotion.  Mutations performed before a raise
persist, hence the `Dialogues × Option PyErr` result. -/
def Dialogues.complete_dialogue_reference (st : Dialogues) (m : Message) :
    Dialogues × Option PyErr :=
  let ref := m.dialogue_reference
  if ref.1 = UNASSIGNED_DIALOGUE_REFERENCE ∨ ref.2 = UNASSIGNED_DIALOGUE_REFERENCE then
    (st, some (.assertionError ("Only complete dialogue references allowed.")))
  else
    match m.sender with
    | none => (st, some (.assertionError ("sender is not set")))
    | some s =>
      let incomplete_dialogue_label : DialogueLabel :=
        ⟨(ref.1, UNASSIGNED_DIALOGUE_REFERENCE), s, st.agent_address⟩
      match dictGet st.dialogues_by_dialogue_label incomplete_dialogue_label,
            dictGet st.incomplete_to_complete_dialogue_labels incomplete_dialogue_label with
      | some dialogue, none =>
        let popped := dictRemove st.dialogues_by_dialogue_label incomplete_dialogue_label
        let final_dialogue_label : DialogueLabel :=
          ⟨ref, incomplete_dialogue_label.dialogue_opponent_addr,
            incomplete_dialogue_label.dialogue_starter_addr⟩
        match dialogue.update_dialogue_label final_dialogue_label with
        | .error e => ({ st with dialogues_by_dialogue_label := popped }, some e)
        | .ok dialogue' =>
          ({ st with
              dialogues_by_dialogue_label :=
                dictInsert popped dialogue'.dialogue_label dialogue'
              incomplete_to_complete_dialogue_labels :=
                dictInsert st.incomplete_to_complete_dialogue_labels
                  incomplete_dialogue_label final_dialogue_label },
            none)
      | _, _ => (st, none)

/-- `Dialogues._create`: record the promotion when a complete label is
supplied, then store a freshly constructed dialogue.  The promotion write
happens before the second assert, so a failure of that assert leaves the
promotion recorded, as in the source. -/
def Dialogues.create_inner (st : Dialogues) (incomplete_dialogue_label : DialogueLabel)
    (role : Nat) (complete_dialogue_label : Option DialogueLabel) :
    Dialogues × Except PyErr Dialogue :=
  if (dictGet st.incomplete_to_complete_dialogue_labels incomplete_dialogue_label).isSome then
    (st, .error (.assertionError ("Incomplete dialogue label already present.")))
  else
    let stamped :=
      match complete_dialogue_label with
      | none => (st, incomplete_dialogue_label)
      | some complete =>
        ({ st with
            incomplete_to_complete_dialogue_labels :=
              dictInsert st.incomplete_to_complete_dialogue_labels
                incomplete_dialogue_label complete },
          complete)
    let st1 := stamped.1
    let dialogue_label := stamped.2
    if (dictGet st1.dialogues_by_dialogue_label dialogue_label).isSome then
      (st1, .error (.assertionError ("Dialogue label already present in dialogues.")))
    else
      let dialogue := Dialogue.init dialogue_label st1.agent_address role st1.rules
      ({ st1 with
          dialogues_by_dialogue_label :=
            dictInsert st1.dialogues_by_dialogue_label dialogue_label dialogue },
        .ok dialogue)

/-- `Dialogues._create_self_initiated`: requires an incomplete reference with
an assigned starter part, labels the dialogue `(reference, opponent, agent)`. -/
def Dialogues.create_self_initiated (st : Dialogues) (dialogue_opponent_addr : String)
    (dialogue_reference : String × String) (role : Nat) :
    Dialogues × Except PyErr Dialogue :=
  if dialogue_reference.1 = UNASSIGNED_DIALOGUE_REFERENCE
      ∨ dialogue_reference.2 ≠ UNASSIGNED_DIALOGUE_REFERENCE then
    (st, .error (.assertionError
      ("Cannot initiate dialogue with preassigned dialogue_responder_reference!")))
  else
    st.create_inner ⟨dialogue_reference, dialogue_opponent_addr, st.agent_address⟩ role none

/-- `Dialogues._create_opponent_initiated`: requires an incomplete reference,
builds the opponent's incomplete label `(reference, opponent, opponent)`, a
complete label with this agent's fresh nonce as responder reference, and
creates the dialogue under the complete label with the promotion recorded. -/
def Dialogues.create_opponent_initiated (nonce : String) (st : Dialogues)
    (dialogue_opponent_addr : String) (dialogue_reference : String × String)
    (role : Nat) : Dialogues × Except PyErr Dialogue :=
  if dialogue_reference.1 = UNASSIGNED_DIALOGUE_REFERENCE
      ∨ dialogue_reference.2 ≠ UNASSIGNED_DIALOGUE_REFERENCE then
    (st, .error (.assertionError
      ("Cannot initiate dialogue with preassigned dialogue_responder_reference!")))
  else
    let incomplete_dialogue_label : DialogueLabel :=
      ⟨dialogue_reference, dialogue_opponent_addr, dialogue_opponent_addr⟩
    let new_dialogue_reference := (dialogue_reference.1, nonce)
    let complete_dialogue_label : DialogueLabel :=
      ⟨new_dialogue_reference, dialogue_opponent_addr, dialogue_opponent_addr⟩
    st.create_inner incomplete_dialogue_label role (some complete_dialogue_label)

/-- The initial message constructed by `Dialogues.create`: fresh incomplete
reference, id 1, target 0, performative as requested, sender this agent,
recipient the counterparty. -/
def Dialogues.initial_message (nonce : String) (st : Dialogues) (counterparty : String)
    (performative : Nat) : Message :=
  { dialogue_reference := Dialogues.new_self_initiated_dialogue_reference nonce
    message_id := STARTING_MESSAGE_ID
    target := STARTING_TARGET
    performative := performative
    sender := some st.agent_address
    «to» := counterparty }

/-- `Dialogues.create`: construct the initial message, create the
self-initiated dialogue, append the message, and on an
`InvalidDialogueMessage` roll the dialogue back out of the registry and raise
a `SyntaxError`. -/
def Dialogues.create (nonce : String) (st : Dialogues) (counterparty : String)
    (performative : Nat) : Dialogues × Except PyErr (Message × Dialogue) :=
  if st.agent_address = "" then
    (st, .error (.assertionError ("agent_address is not set.")))
  else
    let initial_message : Message := Dialogues.initial_message nonce st counterparty performative
    let created := st.create_self_initiated counterparty
      initial_message.dialogue_reference
      (st.rules.role_from_first_message initial_message)
    match created.2 with
    | .error e => (created.1, .error e)
    | .ok dialogue =>
      match dialogue.update initial_message with
      | .ok dialogue' =>
        ({ created.1 with
            dialogues_by_dialogue_label :=
              dictInsert created.1.dialogues_by_dialogue_label
                dialogue'.dialogue_label dialogue' },
          .ok (initial_message, dialogue'))
      | .error (.invalidMessage _) =>
        ({ created.1 with
            dialogues_by_dialogue_label :=
              dictRemove created.1.dialogues_by_dialogue_label dialogue.dialogue_label },
          .error (.syntaxError
            ("Cannot create a dialogue with the specified performative and contents.")))
      | .error e => (created.1, .error e)

/-- The dialogue-attribution phase of `Dialogues.update` (the assignment to
the `dialogue` variable): an invalid reference yields no dialogue, a fresh
incomplete reference with message id 1 creates an opponent-initiated
dialogue, and anything else completes the reference and looks the dialogue
up. -/
def Dialogues.attributed_dialogue (nonce : String) (st : Dialogues) (m : Message)
    (s : String) : Dialogues × Except PyErr (Option Dialogue) :=
  let ref := m.dialogue_reference
  if ref.1 = UNASSIGNED_DIALOGUE_REFERENCE ∧ ref.2 = UNASSIGNED_DIALOGUE_REFERENCE then
    (st, .ok none)
  else if ref.1 ≠ UNASSIGNED_DIALOGUE_REFERENCE
      ∧ ref.2 = UNASSIGNED_DIALOGUE_REFERENCE ∧ m.message_id = 1 then
    match st.create_opponent_initiated nonce s ref (st.rules.role_from_first_message m) with
    | (st', .ok d) => (st', .ok (some d))
    | (st', .error e) => (st', .error e)
  else
    match st.complete_dialogue_reference m with
    | (st', none) =>
      match st'.get_dialogue m with
      | .ok od => (st', .ok od)
      | .error e => (st', .error e)
    | (st', some e) => (st', .error e)

/-- `Dialogues.update`: asserts the message is inbound, attributes it to a
dialogue (possibly creating or promoting one), then appends it via
`Dialogue.update`; an `InvalidDialogueMessage` there is swallowed into a
`none` result.  The success case re-stores the updated dialogue under its
label, modelling the in-place mutation of the shared dialogue object. -/
def Dialogues.update (nonce : String) (st : Dialogues) (m : Message) :
    Dialogues × Except PyErr (Option Dialogue) :=
  if st.agent_address = "" then
    (st, .error (.assertionError ("agent_address is not set.")))
  else
    match m.sender with
    | none => (st, .error (.assertionError ("sender is not set")))
    | some s =>
      if s = st.agent_address then
        (st, .error (.assertionError
          ("Invalid update usage. Update must only be used with a message by another agent.")))
      else
        let attributed := st.attributed_dialogue nonce m s
        match attributed.2 with
        | .error e => (attributed.1, .error e)
        | .ok none => (attributed.1, .ok none)
        | .ok (some dialogue) =>
          match dialogue.update m with
          | .ok dialogue' =>
            ({ attributed.1 with
                dialogues_by_dialogue_label :=
                  dictInsert attributed.1.dialogues_by_dialogue_label
                    dialogue'.dialogue_label dialogue' },
              .ok (some dialogue'))
          | .error (.invalidMessage _) => (attributed.1, .ok none)
          | .error e => (attributed.1, .error e)

/-- The serialized text of a label, `DialogueLabel.__str__`:
starter reference, responder reference, opponent address, starter address,
joined by underscores. -/
def DialogueLabel.toStr (lbl : DialogueLabel) : String :=
  lbl.dialogue_starter_reference ++ "_" ++ lbl.dialogue_responder_reference
    ++ "_" ++ lbl.dialogue_opponent_addr ++ "_" ++ lbl.dialogue_starter_addr

/-- Character-level model of Python `str.split` with the single-character
separator `"_"`: empty fields are kept, and the empty string splits to one
empty field. -/
def splitOnUnderscore : List Char → List (List Char)
  | [] => [[]]
  | c :: cs =>
    if c = '_' then [] :: splitOnUnderscore cs
    else
      match splitOnUnderscore cs with
      | [] => [[c]]
      | p :: ps => (c :: p) :: ps

/-- `DialogueLabel.from_str`: split on underscores and destructure into
exactly four components (Python unpacking raises on any other arity, hence
the `Option`). -/
def DialogueLabel.from_str (s : String) : Option DialogueLabel :=
  match splitOnUnderscore s.data with
  | [a, b, c, d] =>
    some ⟨(String.mk a, String.mk b), String.mk c, String.mk d⟩
  | _ => none

/-- A Python string object: an object identity paired with its text value.
`==` compares values; `is` compares identities. -/
structure PyStr where
  objId : Nat
  val : String
deriving DecidableEq, Repr

/-- The Python `is not` comparison on string objects. -/
def pyIsNot (a b : PyStr) : Bool := a.objId != b.objId

/-- A dialogue label whose address components are Python string objects,
used to model the single identity-sensitive line of `Dialogue.__init__`. -/
structure PyDialogueLabel where
  dialogue_reference : String × String
  dialogue_opponent_addr : PyStr
  dialogue_starter_addr : PyStr
deriving DecidableEq, Repr

/-- The assignment
`self._is_self_initiated = dialogue_label.dialogue_opponent_addr is not dialogue_label.dialogue_starter_addr`
of `Dialogue.__init__`, identity comparison included. -/
def pyInitIsSelfInitiated (dialogue_label : PyDialogueLabel) : Bool :=
  pyIsNot dialogue_label.dialogue_opponent_addr dialogue_label.dialogue_starter_addr

/-- The dialogue states reachable from a freshly constructed dialogue by any
sequence of `Dialogue.update` and `Dialogue.reply` calls. -/
inductive DialogueReachable (rules : ProtocolRules) : Dialogue → Prop
  | start (lbl : DialogueLabel) (agent : String) (role : Nat) :
      DialogueReachable rules (Dialogue.init lbl agent role rules)
  | step (d : Dialogue) (m : Message) (d' : Dialogue) :
      DialogueReachable rules d → Dialogue.update d m = .ok d' →
      DialogueReachable rules d'
  | replyStep (d : Dialogue) (tm : Message) (p : Nat) (d' : Dialogue) (m : Message) :
      DialogueReachable rules d → Dialogue.reply d tm p = .ok (d', m) →
      DialogueReachable rules d'

/-- The registry states reachable from a fresh registry by any sequence of
`Dialogues.create` and `Dialogues.update` calls.  Nonces are drawn from the
oracle with the guarantee (spec section 6) that the unassigned sentinel is
never generated. -/
inductive RegistryReachable (agent : String) (rules : ProtocolRules) : Dialogues → Prop
  | start : RegistryReachable agent rules (Dialogues.init agent rules)
  | createStep (st : Dialogues) (nonce counterparty : String) (performative : Nat) :
      nonce ≠ "" → RegistryReachable agent rules st →
      RegistryReachable agent rules (Dialogues.create nonce st counterparty performative).1
  | updateStep (st : Dialogues) (nonce : String) (m : Message) :
      nonce ≠ "" → RegistryReachable agent rules st →
      RegistryReachable agent rules (Dialogues.update nonce st m).1

/-- A small concrete protocol: performative 0 opens, 0 may be answered by 1,
1 by 2, 2 by 1; every message passes the protocol-specific hook. -/
def exampleRules : ProtocolRules :=
  { initial_performatives := [0]
    valid_replies := [(0, [1]), (1, [2]), (2, [1])]
    is_valid := fun _ => (true, "ok")
    role_from_first_message := fun _ => 0 }

/-- A protocol whose hook rejects every message, for exercising the rollback
in `Dialogues.create`. -/
def rejectingRules : ProtocolRules :=
  { initial_performatives := [0]
    valid_replies := [(0, [1])]
    is_valid := fun _ => (false, "rejected by the protocol hook")
    role_from_first_message := fun _ => 0 }

theorem dictGet_insert_self {κ α : Type} [DecidableEq κ] (l : List (κ × α)) (k : κ) (v : α) :
    dictGet (dictInsert l k v) k = some v := by
  induction l with
  | nil => simp [dictInsert, dictGet]
  | cons p rest ih =>
    rcases p with ⟨pk, pv⟩
    by_cases h : pk = k
    · simp [dictInsert, dictGet, h]
    · simpa [dictInsert, dictGet, h] using ih

theorem dictGet_insert_ne {κ α : Type} [DecidableEq κ] (l : List (κ × α)) (k k' : κ) (v : α)
    (h : k' ≠ k) : dictGet (dictInsert l k v) k' = dictGet l k' := by
  have hk : k ≠ k' := fun he => h he.symm
  induction l with
  | nil => simp [dictInsert, dictGet, hk]
  | cons p rest ih =>
    rcases p with ⟨pk, pv⟩
    by_cases hp : pk = k
    · subst hp
      simp [dictInsert, dictGet, hk]
    · by_cases hp' : pk = k'
      · subst hp'
        simp [dictInsert, dictGet, hp, h]
      · simpa [dictInsert, dictGet, hp, hp'] using ih

theorem dictRemove_insert_cancel {κ α : Type} [DecidableEq κ] (l : List (κ × α)) (k : κ) (v : α)
    (h : dictGet l k = none) : dictRemove (dictInsert l k v) k = l := by
  induction l with
  | nil => simp [dictInsert, dictRemove]
  | cons p rest ih =>
    rcases p with ⟨pk, pv⟩
    by_cases hp : pk = k
    · simp [dictGet, hp] at h
    · simp only [dictGet, hp, if_false] at h
      simp [dictInsert, dictRemove, hp, ih h]

theorem dictGet_eq_none_iff {κ α : Type} [DecidableEq κ] (l : List (κ × α)) (k : κ) :
    dictGet l k = none ↔ ∀ p ∈ l, p.1 ≠ k := by
  induction l with
  | nil => simp [dictGet]
  | cons p rest ih =>
    rcases p with ⟨pk, pv⟩
    by_cases hp : pk = k
    · simp [dictGet, hp]
    · simp [dictGet, hp, ih]

theorem mem_dictInsert {κ α : Type} [DecidableEq κ] (l : List (κ × α)) (k : κ) (v : α)
    (p : κ × α) (h : p ∈ dictInsert l k v) : p = (k, v) ∨ p ∈ l := by
  induction l with
  | nil =>
    simp [dictInsert] at h
    exact Or.inl h
  | cons q rest ih =>
    rcases q with ⟨qk, qv⟩
    by_cases hq : qk = k
    · simp only [dictInsert, hq, if_true] at h
      rcases List.mem_cons.mp h with h | h
      · exact Or.inl h
      · exact Or.inr (List.mem_cons_of_mem _ h)
    · simp only [dictInsert, hq, if_false] at h
      rcases List.mem_cons.mp h with h | h
      · exact Or.inr (h ▸ List.mem_cons_self _ _)
      · rcases ih h with h | h
        · exact Or.inl h
        · exact Or.inr (List.mem_cons_of_mem _ h)

theorem mem_dictRemove {κ α : Type} [DecidableEq κ] (l : List (κ × α)) (k : κ)
    (p : κ × α) (h : p ∈ dictRemove l k) : p ∈ l := by
  induction l with
  | nil => exact absurd h (by simp [dictRemove])
  | cons q rest ih =>
    rcases q with ⟨qk, qv⟩
    by_cases hq : qk = k
    · simp only [dictRemove, hq, if_true] at h
      exact List.mem_cons_of_mem _ h
    · simp only [dictRemove, hq, if_false] at h
      rcases List.mem_cons.mp h with h | h
      · exact h ▸ List.mem_cons_self _ _
      · exact List.mem_cons_of_mem _ (ih h)

theorem keys_nodup_dictInsert {κ α : Type} [DecidableEq κ] (l : List (κ × α)) (k : κ) (v : α)
    (h : (l.map Prod.fst).Nodup) : ((dictInsert l k v).map Prod.fst).Nodup := by
  induction l with
  | nil => simp [dictInsert]
  | cons q rest ih =>
    rcases q with ⟨qk, qv⟩
    simp only [List.map_cons, List.nodup_cons] at h
    by_cases hq : qk = k
    · subst hq
      simpa [dictInsert, List.nodup_cons] using h
    · simp only [dictInsert, hq, if_false, List.map_cons, List.nodup_cons]
      refine ⟨?_, ih h.2⟩
      intro hmem
      rcases List.mem_map.mp hmem with ⟨p, hp, hp1⟩
      rcases mem_dictInsert rest k v p hp with rfl | hp'
      · exact hq hp1.symm
      · exact h.1 (List.mem_map.mpr ⟨p, hp', hp1⟩)

theorem keys_nodup_dictRemove {κ α : Type} [DecidableEq κ] (l : List (κ × α)) (k : κ)
    (h : (l.map Prod.fst).Nodup) : ((dictRemove l k).map Prod.fst).Nodup := by
  induction l with
  | nil => simp [dictRemove]
  | cons q rest ih =>
    rcases q with ⟨qk, qv⟩
    simp only [List.map_cons, List.nodup_cons] at h
    by_cases hq : qk = k
    · simp only [dictRemove, hq, if_true]
      exact h.2
    · simp only [dictRemove, hq, if_false, List.map_cons, List.nodup_cons]
      refine ⟨?_, ih h.2⟩
      intro hmem
      rcases List.mem_map.mp hmem with ⟨p, hp, hp1⟩
      exact h.1 (List.mem_map.mpr ⟨p, mem_dictRemove rest k p hp, hp1⟩)

theorem dictGet_remove_self {κ α : Type} [DecidableEq κ] (l : List (κ × α)) (k : κ)
    (h : (l.map Prod.fst).Nodup) : dictGet (dictRemove l k) k = none := by
  induction l with
  | nil => simp [dictRemove, dictGet]
  | cons q rest ih =>
    rcases q with ⟨qk, qv⟩
    simp only [List.map_cons, List.nodup_cons] at h
    by_cases hq : qk = k
    · subst hq
      simp only [dictRemove, if_true]
      exact (dictGet_eq_none_iff rest qk).mpr
        (fun p hp hpk => h.1 (List.mem_map.mpr ⟨p, hp, hpk⟩))
    · simp [dictRemove, dictGet, hq, ih h.2]

theorem dictGet_remove_ne {κ α : Type} [DecidableEq κ] (l : List (κ × α)) (k k' : κ)
    (h : k' ≠ k) : dictGet (dictRemove l k) k' = dictGet l k' := by
  induction l with
  | nil => simp [dictRemove]
  | cons q rest ih =>
    rcases q with ⟨qk, qv⟩
    have hk : ¬ k = k' := fun he => h he.symm
    by_cases hq : qk = k
    · subst hq
      simp [dictRemove, dictGet, hk]
    · by_cases hq' : qk = k'
      · subst hq'
        simp [dictRemove, dictGet, h]
      · simpa [dictRemove, dictGet, hq, hq'] using ih

theorem dictGet_some_mem {κ α : Type} [DecidableEq κ] (l : List (κ × α)) (k : κ) (v : α)
    (h : dictGet l k = some v) : (k, v) ∈ l := by
  induction l with
  | nil => simp [dictGet] at h
  | cons q rest ih =>
    rcases q with ⟨qk, qv⟩
    by_cases hq : qk = k
    · simp only [dictGet, hq, if_true, Option.some.injEq] at h
      subst hq
      subst h
      exact List.mem_cons_self _ _
    · simp only [dictGet, hq, if_false] at h
      exact List.mem_cons_of_mem _ (ih h)

/-- The label whose opponent and starter addresses are distinct string
objects carrying the same text. -/
def aliasedLabel : PyDialogueLabel := ⟨("ref", ""), ⟨0, "addr"⟩, ⟨1, "addr"⟩⟩

/-- C9: the source sets `is_self_initiated` with the identity comparison
`is not`, so a dialogue whose starter and opponent addresses are equal
strings held as distinct objects gets the flag `true` although the claim
(and the spec's intended equality semantics) requires `false` when the two
address strings are equal. -/
theorem C9_is_self_initiated_identity_divergence :
    pyInitIsSelfInitiated aliasedLabel = true
      ∧ aliasedLabel.dialogue_opponent_addr.val = aliasedLabel.dialogue_starter_addr.val := by
  constructor
  · rfl
  · rfl

/-- C10: an inbound message with reference `(r, "")`, `r` nonempty, and a
message id other than 1 takes the continuation branch of `Dialogues.update`
and fails the completeness assertion inside `_complete_dialogue_reference`,
leaving the registry state untouched. -/
theorem C10_incomplete_reference_continuation_asserts
    (nonce : String) (st : Dialogues) (m : Message) (s r : String)
    (hagent : st.agent_address ≠ "")
    (hsender : m.sender = some s) (hother : s ≠ st.agent_address)
    (href : m.dialogue_reference = (r, "")) (hr : r ≠ "") (hid : m.message_id ≠ 1) :
    Dialogues.update nonce st m
      = (st, .error (.assertionError ("Only complete dialogue references allowed."))) := by
  rcases m with ⟨ref, mid, tgt, perf, snd, mto⟩
  simp only [Message.sender] at hsender
  subst hsender
  simp only [Message.dialogue_reference] at href
  subst href
  simp only [Message.message_id] at hid
  simp [Dialogues.update, Dialogues.attributed_dialogue,
    Dialogues.complete_dialogue_reference, hagent, hother, hr, hid,
    UNASSIGNED_DIALOGUE_REFERENCE]

/-- Concrete instance of the C10 theorem. -/
theorem C10_witness :
    Dialogues.update "n9" (Dialogues.init "A" exampleRules) ⟨("x", ""), 2, 1, 1, some "O", "A"⟩
      = (Dialogues.init "A" exampleRules,
          .error (.assertionError ("Only complete dialogue references allowed."))) :=
  C10_incomplete_reference_continuation_asserts "n9" (Dialogues.init "A" exampleRules)
    ⟨("x", ""), 2, 1, 1, some "O", "A"⟩ "O" "x"
    (by decide) rfl (by decide) rfl (by decide) (by decide)

/-- The first message of the C1 scenario: opponent `O` opens a dialogue with
agent `A` under the incomplete reference `("r", "")`. -/
def c1_m1 : Message := ⟨("r", ""), 1, 0, 0, some "O", "A"⟩

/-- The registry of agent `A` after processing `c1_m1` (the opponent-initiated
dialogue is created with responder nonce `"n1"` and stored under its complete
label). -/
def c1_st1 : Dialogues := (Dialogues.update "n1" (Dialogues.init "A" exampleRules) c1_m1).1

/-- The opponent-initiated dialogue as stored in `c1_st1`. -/
def c1_d1 : Dialogue :=
  match (Dialogues.update "n1" (Dialogues.init "A" exampleRules) c1_m1).2 with
  | .ok (some d) => d
  | _ => Dialogue.init ⟨("", ""), "", ""⟩ "" 0 exampleRules

/-- The dialogue after agent `A` replies to `c1_m1` with performative 1
(the reply carries the complete reference `("r", "n1")`). -/
def c1_d2 : Dialogue :=
  match Dialogue.reply c1_d1 c1_m1 1 with
  | .ok (d, _) => d
  | _ => c1_d1

/-- The registry state after the reply: the dialogue object stored under the
complete label has mutated in place. -/
def c1_st2 : Dialogues :=
  { c1_st1 with
      dialogues_by_dialogue_label :=
        dictInsert c1_st1.dialogues_by_dialogue_label c1_d2.dialogue_label c1_d2 }

/-- The opponent's next message, carrying the dialogue's complete reference
`("r", "n1")` and valid in every respect for the stored dialogue. -/
def c1_m3 : Message := ⟨("r", "n1"), 3, 2, 2, some "O", "A"⟩

/-- The dialogue state that accepting `c1_m3` would produce. -/
def c1_d3 : Dialogue :=
  match Dialogue.update c1_d2 c1_m3 with
  | .ok d => d
  | _ => c1_d2

/-- C1 fails on the code: the registry stores the opponent-initiated dialogue
under `(("r", "n1"), O, O)` and the dialogue accepts `c1_m3` as its next
message, yet `get_dialogue` reconstructs the opponent-initiated candidate
with `message.to` (the agent's own address) as starter, finds nothing, and
`Dialogues.update` returns `none` instead of routing the message. -/
theorem C1_opponent_initiated_continuation_lost :
    dictGet c1_st2.dialogues_by_dialogue_label ⟨("r", "n1"), "O", "O"⟩ = some c1_d2
      ∧ (∃ d', Dialogue.update c1_d2 c1_m3 = .ok d')
      ∧ Dialogues.get_dialogue c1_st2 c1_m3 = .ok none
      ∧ Dialogues.update "n2" c1_st2 c1_m3 = (c1_st2, .ok none) := by
  exact ⟨rfl, ⟨c1_d3, rfl⟩, rfl, rfl⟩

theorem splitOnUnderscore_append_sep (a rest : List Char) (h : '_' ∉ a) :
    splitOnUnderscore (a ++ '_' :: rest) = a :: splitOnUnderscore rest := by
  induction a with
  | nil => simp [splitOnUnderscore]
  | cons c cs ih =>
    have hc : c ≠ '_' := fun he => h (he ▸ List.mem_cons_self c cs)
    have hcs : '_' ∉ cs := fun hm => h (List.mem_cons_of_mem c hm)
    simp only [List.cons_append, splitOnUnderscore, hc, if_false, List.append_eq, ih hcs]

theorem splitOnUnderscore_no_sep (a : List Char) (h : '_' ∉ a) :
    splitOnUnderscore a = [a] := by
  induction a with
  | nil => rfl
  | cons c cs ih =>
    have hc : c ≠ '_' := fun he => h (he ▸ List.mem_cons_self c cs)
    have hcs : '_' ∉ cs := fun hm => h (List.mem_cons_of_mem c hm)
    simp only [splitOnUnderscore, hc, if_false, ih hcs]

theorem String.mk_data_self (s : String) : String.mk s.data = s := rfl

/-- C8: parsing the serialized text of a label recovers the label whenever
none of its four components contains an underscore. -/
theorem C8_label_string_round_trip (lbl : DialogueLabel)
    (h1 : '_' ∉ lbl.dialogue_reference.1.data)
    (h2 : '_' ∉ lbl.dialogue_reference.2.data)
    (h3 : '_' ∉ lbl.dialogue_opponent_addr.data)
    (h4 : '_' ∉ lbl.dialogue_starter_addr.data) :
    DialogueLabel.from_str lbl.toStr = some lbl := by
  have hu : ("_" : String).data = ['_'] := rfl
  have hdata : (lbl.toStr).data
      = lbl.dialogue_reference.1.data ++ '_' ::
          (lbl.dialogue_reference.2.data ++ '_' ::
            (lbl.dialogue_opponent_addr.data ++ '_' :: lbl.dialogue_starter_addr.data)) := by
    simp [DialogueLabel.toStr, DialogueLabel.dialogue_starter_reference,
      DialogueLabel.dialogue_responder_reference, String.data_append, hu]
  rw [DialogueLabel.from_str, hdata,
    splitOnUnderscore_append_sep _ _ h1,
    splitOnUnderscore_append_sep _ _ h2,
    splitOnUnderscore_append_sep _ _ h3,
    splitOnUnderscore_no_sep _ h4]

/-- Concrete instance of the C8 theorem. -/
theorem C8_witness :
    DialogueLabel.from_str (DialogueLabel.toStr ⟨("ref1", "ref2"), "opp", "starter"⟩)
      = some ⟨("ref1", "ref2"), "opp", "starter"⟩ :=
  C8_label_string_round_trip ⟨("ref1", "ref2"), "opp", "starter"⟩
    (by decide) (by decide) (by decide) (by decide)

theorem resolve_sender_fields (d : Dialogue) (m : Message) :
    (d.resolve_sender m).dialogue_reference = m.dialogue_reference
      ∧ (d.resolve_sender m).message_id = m.message_id
      ∧ (d.resolve_sender m).target = m.target
      ∧ (d.resolve_sender m).performative = m.performative
      ∧ (d.resolve_sender m).«to» = m.«to» := by
  by_cases hs : m.sender.isSome <;> simp [Dialogue.resolve_sender, hs]

theorem update_ok_valid (d : Dialogue) (m : Message) (d' : Dialogue)
    (h : Dialogue.update d m = .ok d') :
    ∃ t, d.is_valid_next_message (d.resolve_sender m) = .ok (true, t) := by
  unfold Dialogue.update at h
  by_cases hb : d.is_belonging_to_dialogue (d.resolve_sender m)
  · simp only [hb, not_true, if_false] at h
    rcases hv : d.is_valid_next_message (d.resolve_sender m) with e | ⟨ok, t⟩
    · rw [hv] at h
      exact absurd h (by simp)
    · rcases ok with _ | _
      · rw [hv] at h
        exact absurd h (by simp)
      · exact ⟨t, rfl⟩
  · simp [hb] at h

theorem valid_next_ok_true (d : Dialogue) (m : Message) (t : String)
    (h : d.is_valid_next_message m = .ok (true, t)) :
    (∃ t1, d.basic_validation m = .ok (true, t1))
      ∧ (d.additional_validation m).1 = true := by
  unfold Dialogue.is_valid_next_message at h
  rcases hb : d.basic_validation m with e | ⟨ok, t1⟩
  · rw [hb] at h
    exact absurd h (by simp)
  · rcases ok with _ | _
    · rw [hb] at h
      exact absurd h (by simp)
    · refine ⟨⟨t1, rfl⟩, ?_⟩
      rw [hb] at h
      rcases ha : d.additional_validation m with ⟨ok2, t2⟩
      rcases ok2 with _ | _
      · rw [ha] at h
        exact absurd h (by simp)
      · rfl

theorem basic_ok_initial (d : Dialogue) (m : Message) (t : String)
    (hl : d.last_message = none)
    (h : d.basic_validation m = .ok (true, t)) :
    m.dialogue_reference.1 = d.dialogue_label.dialogue_reference.1
      ∧ m.message_id = 1 ∧ m.target = 0
      ∧ m.performative ∈ d.rules.initial_performatives := by
  simp only [Dialogue.basic_validation, hl] at h
  by_cases h1 : m.dialogue_reference.1 ≠ d.dialogue_label.dialogue_reference.1
  · simp [h1] at h
  · rw [if_neg h1] at h
    push_neg at h1
    by_cases h2 : m.message_id ≠ STARTING_MESSAGE_ID
    · simp [h2] at h
    · rw [if_neg h2] at h
      push_neg at h2
      by_cases h3 : m.target ≠ STARTING_TARGET
      · simp [h3] at h
      · rw [if_neg h3] at h
        push_neg at h3
        by_cases h4 : m.performative ∈ d.rules.initial_performatives
        · exact ⟨h1, h2, h3, h4⟩
        · simp [h4] at h

theorem basic_ok_next (d : Dialogue) (m : Message) (t : String) (last : Message)
    (hl : d.last_message = some last)
    (h : d.basic_validation m = .ok (true, t)) :
    m.dialogue_reference.1 = d.dialogue_label.dialogue_reference.1
      ∧ m.message_id = last.message_id + 1
      ∧ 1 ≤ m.target ∧ m.target ≤ last.message_id
      ∧ ∃ tm replies, d.get_message m.target = .ok (some tm)
          ∧ Dialogue.get_valid_replies d.rules tm.performative = .ok replies
          ∧ m.performative ∈ replies := by
  simp only [Dialogue.basic_validation, hl] at h
  by_cases h1 : m.dialogue_reference.1 ≠ d.dialogue_label.dialogue_reference.1
  · simp [h1] at h
  · rw [if_neg h1] at h
    push_neg at h1
    by_cases h2 : m.message_id ≠ last.message_id + 1
    · simp [h2] at h
    · rw [if_neg h2] at h
      push_neg at h2
      by_cases h3 : m.target < 1
      · simp [h3] at h
      · rw [if_neg h3] at h
        push_neg at h3
        by_cases h4 : last.message_id < m.target
        · simp [h4] at h
        · rw [if_neg h4] at h
          push_neg at h4
          split at h
          · exact absurd h (by simp)
          · exact absurd h (by simp)
          · rename_i tm heq
            split at h
            · exact absurd h (by simp)
            · rename_i replies hreq
              by_cases h5 : m.performative ∈ replies
              · exact ⟨h1, h2, h3, h4, tm, replies, heq, hreq, h5⟩
              · simp [h5] at h

theorem additional_ok (d : Dialogue) (m : Message) (last : Message)
    (hl : d.last_message = some last)
    (h : (d.additional_validation m).1 = true) :
    m.target = last.target + 1 := by
  unfold Dialogue.additional_validation at h
  rw [hl] at h
  by_cases ht : m.target ≠ last.target + 1
  · simp [ht] at h
  · push_neg at ht
    exact ht

theorem get_message_ok_id (d : Dialogue) (k : Nat) (tm : Message)
    (h : d.get_message k = .ok (some tm)) : tm.message_id = k := by
  unfold Dialogue.get_message at h
  by_cases h1 : k < 1
  · simp [h1] at h
  · rw [if_neg h1] at h
    by_cases h2 : (d.all_messages).length < k
    · simp [h2] at h
    · rw [if_neg h2] at h
      simp only [Except.ok.injEq] at h
      have := List.find?_some h
      simpa using this

/-- C3: a message accepted by `Dialogue.update` satisfies the reply
structure: an initial message has id 1, target 0 and an initial
performative; a later message targets an existing earlier message (target
between 1 and the last id) and carries a performative in the
valid-replies set of the targeted message's performative. -/
theorem C3_accepted_message_reply_structure (d : Dialogue) (m : Message) (d' : Dialogue)
    (h : Dialogue.update d m = .ok d') :
    (d.last_message = none →
        m.performative ∈ d.rules.initial_performatives
          ∧ m.message_id = 1 ∧ m.target = 0)
      ∧ (∀ last, d.last_message = some last →
          1 ≤ m.target ∧ m.target ≤ last.message_id
            ∧ ∃ tm replies, d.get_message m.target = .ok (some tm)
                ∧ tm.message_id = m.target
                ∧ Dialogue.get_valid_replies d.rules tm.performative = .ok replies
                ∧ m.performative ∈ replies) := by
  obtain ⟨t, hv⟩ := update_ok_valid d m d' h
  obtain ⟨⟨t1, hb⟩, _⟩ := valid_next_ok_true _ _ _ hv
  obtain ⟨hfr, hfid, hft, hfp, hfto⟩ := resolve_sender_fields d m
  constructor
  · intro hl
    obtain ⟨_, h2, h3, h4⟩ := basic_ok_initial d _ t1 hl hb
    rw [hfid, hft, hfp] at *
    exact ⟨h4, h2, h3⟩
  · intro last hl
    obtain ⟨_, h2, h3, h4, tm, replies, hg, hr, h5⟩ := basic_ok_next d _ t1 last hl hb
    rw [hft] at h3 h4 hg
    rw [hfp] at h5
    exact ⟨h3, h4, tm, replies, hg, get_message_ok_id d m.target tm hg, hr, h5⟩

/-- The registry of agent `A` after a successful `Dialogues.create` towards
counterparty `O` with nonce `"x"` and performative 0. -/
def selfSt : Dialogues := (Dialogues.create "x" (Dialogues.init "A" exampleRules) "O" 0).1

/-- The self-initiated dialogue created in `selfSt`. -/
def selfD : Dialogue :=
  match (Dialogues.create "x" (Dialogues.init "A" exampleRules) "O" 0).2 with
  | .ok (_, d) => d
  | _ => Dialogue.init ⟨("", ""), "", ""⟩ "" 0 exampleRules

/-- The initial message of `selfD`. -/
def selfM1 : Message := ⟨("x", ""), 1, 0, 0, some "A", "O"⟩

/-- An inbound continuation from `O` that still carries the incomplete
reference `("x", "")` with message id 2 — a valid next message for `selfD`
itself. -/
def contM2 : Message := ⟨("x", ""), 2, 1, 1, some "O", "A"⟩

/-- The dialogue state after `selfD` accepts `contM2`. -/
def selfD2 : Dialogue :=
  match Dialogue.update selfD contM2 with
  | .ok d => d
  | _ => selfD

/-- Concrete instance of the C3 theorem, at the accepted message `contM2`. -/
theorem C3_witness :
    1 ≤ contM2.target ∧ contM2.target ≤ selfM1.message_id
      ∧ ∃ tm replies, selfD.get_message contM2.target = .ok (some tm)
          ∧ tm.message_id = contM2.target
          ∧ Dialogue.get_valid_replies selfD.rules tm.performative = .ok replies
          ∧ contM2.performative ∈ replies :=
  (C3_accepted_message_reply_structure selfD contM2 selfD2 rfl).2 selfM1 rfl

theorem update_ok_cases (d : Dialogue) (m : Message) (d' : Dialogue)
    (h : Dialogue.update d m = .ok d') :
    (d.is_message_by_self (d.resolve_sender m) = true
        ∧ d' = { d with
            outgoing_messages := d.outgoing_messages ++ [d.resolve_sender m] })
      ∨ (d.is_message_by_self (d.resolve_sender m) = false
        ∧ d' = { d with
            incoming_messages := d.incoming_messages ++ [d.resolve_sender m] }) := by
  unfold Dialogue.update at h
  by_cases hb : d.is_belonging_to_dialogue (d.resolve_sender m)
  · simp only [hb, not_true, if_false] at h
    rcases hv : d.is_valid_next_message (d.resolve_sender m) with e | ⟨ok, t⟩
    · rw [hv] at h
      exact absurd h (by simp)
    · rw [hv] at h
      rcases ok with _ | _
      · exact absurd h (by simp)
      · by_cases hs : d.is_message_by_self (d.resolve_sender m)
        · rw [if_pos hs] at h
          simp only [Except.ok.injEq] at h
          exact Or.inl ⟨hs, h.symm⟩
        · rw [if_neg hs] at h
          simp only [Except.ok.injEq] at h
          exact Or.inr ⟨Bool.not_eq_true _ ▸ (by simpa using hs), h.symm⟩
  · simp [hb] at h

theorem create_self_initiated_ok (st : Dialogues) (opp : String) (ref : String × String)
    (role : Nat) (dlg : Dialogue)
    (h : (st.create_self_initiated opp ref role).2 = .ok dlg) :
    ref.1 ≠ "" ∧ ref.2 = ""
      ∧ dlg = Dialogue.init ⟨ref, opp, st.agent_address⟩ st.agent_address role st.rules
      ∧ dictGet st.incomplete_to_complete_dialogue_labels ⟨ref, opp, st.agent_address⟩ = none
      ∧ dictGet st.dialogues_by_dialogue_label ⟨ref, opp, st.agent_address⟩ = none
      ∧ (st.create_self_initiated opp ref role).1
          = { st with
              dialogues_by_dialogue_label :=
                dictInsert st.dialogues_by_dialogue_label ⟨ref, opp, st.agent_address⟩ dlg } := by
  unfold Dialogues.create_self_initiated at h ⊢
  by_cases hra : ref.1 = UNASSIGNED_DIALOGUE_REFERENCE ∨ ref.2 ≠ UNASSIGNED_DIALOGUE_REFERENCE
  · simp [hra] at h
  · rw [if_neg hra] at h
    rw [if_neg hra]
    push_neg at hra
    unfold Dialogues.create_inner at h ⊢
    by_cases hpromo :
        (dictGet st.incomplete_to_complete_dialogue_labels ⟨ref, opp, st.agent_address⟩).isSome
    · simp [hpromo] at h
    · rw [if_neg hpromo] at h
      rw [if_neg hpromo]
      simp only at h ⊢
      by_cases hdlgs : (dictGet st.dialogues_by_dialogue_label ⟨ref, opp, st.agent_address⟩).isSome
      · simp [hdlgs] at h
      · rw [if_neg hdlgs] at h
        rw [if_neg hdlgs]
        simp only [Except.ok.injEq] at h
        exact ⟨hra.1, hra.2, h.symm,
          Option.not_isSome_iff_eq_none.mp hpromo,
          Option.not_isSome_iff_eq_none.mp hdlgs, by rw [h]⟩

/-- C6: when the freshly created self-initiated dialogue rejects the initial
message, `Dialogues.create` removes the partially created dialogue again, so
the whole registry state (label map included) is exactly what it was before
the call, and the caller sees the `SyntaxError`. -/
theorem C6_create_atomic_on_failure (nonce : String) (st : Dialogues)
    (counterparty : String) (performative : Nat) (dlg : Dialogue) (msg : String)
    (hagent : st.agent_address ≠ "")
    (hcreated : (st.create_self_initiated counterparty (nonce, UNASSIGNED_DIALOGUE_REFERENCE)
        (st.rules.role_from_first_message
          (Dialogues.initial_message nonce st counterparty performative))).2 = .ok dlg)
    (hinvalid : dlg.update (Dialogues.initial_message nonce st counterparty performative)
        = .error (.invalidMessage msg)) :
    Dialogues.create nonce st counterparty performative
      = (st, .error (.syntaxError
          ("Cannot create a dialogue with the specified performative and contents."))) := by
  obtain ⟨_, _, hdlg, _, hfresh, hst1⟩ := create_self_initiated_ok st counterparty _ _ dlg hcreated
  unfold Dialogues.create
  rw [if_neg hagent]
  simp only [Dialogues.new_self_initiated_dialogue_reference, Dialogues.initial_message] at *
  rw [hcreated]
  simp only []
  rw [hinvalid]
  simp only []
  rw [hst1]
  have hlbl : dlg.dialogue_label
      = (⟨(nonce, UNASSIGNED_DIALOGUE_REFERENCE), counterparty, st.agent_address⟩ : DialogueLabel) := by
    rw [hdlg]
    rfl
  rw [hlbl,
    dictRemove_insert_cancel st.dialogues_by_dialogue_label _ dlg hfresh]

/-- C7: a normal return of `Dialogues.create` yields the initial message
(id 1, target 0, reference `(nonce, "")`, sender the agent, recipient the
counterparty) and a self-initiated dialogue stored under the incomplete label
`((nonce, ""), counterparty, agent)` whose log consists of exactly that
message.  The hypothesis that the counterparty differs from the agent's own
address is the spec's data-model invariant (the opponent is never the owning
agent). -/
theorem C7_create_success_shape (nonce : String) (st : Dialogues)
    (counterparty : String) (performative : Nat) (st' : Dialogues)
    (m : Message) (dlg : Dialogue)
    (hcp : counterparty ≠ st.agent_address)
    (h : Dialogues.create nonce st counterparty performative = (st', .ok (m, dlg))) :
    m.message_id = 1 ∧ m.target = 0
      ∧ m.dialogue_reference = (nonce, UNASSIGNED_DIALOGUE_REFERENCE)
      ∧ m.sender = some st.agent_address ∧ m.«to» = counterparty
      ∧ dlg.is_self_initiated = true
      ∧ dlg.dialogue_label
          = ⟨(nonce, UNASSIGNED_DIALOGUE_REFERENCE), counterparty, st.agent_address⟩
      ∧ dictGet st'.dialogues_by_dialogue_label
          ⟨(nonce, UNASSIGNED_DIALOGUE_REFERENCE), counterparty, st.agent_address⟩ = some dlg
      ∧ dlg.outgoing_messages = [m] ∧ dlg.incoming_messages = [] := by
  unfold Dialogues.create at h
  by_cases hagent : st.agent_address = ""
  · simp [hagent] at h
  · rw [if_neg hagent] at h
    simp only at h
    rcases hc : (st.create_self_initiated counterparty
        (Dialogues.initial_message nonce st counterparty performative).dialogue_reference
        (st.rules.role_from_first_message
          (Dialogues.initial_message nonce st counterparty performative))).2 with e | dlg0
    · rw [hc] at h
      exact absurd h (by simp)
    · rw [hc] at h
      simp only [] at h
      obtain ⟨_, _, hdlg0, _, hfresh, hst1⟩ := create_self_initiated_ok st counterparty _ _ dlg0 hc
      rcases hu : dlg0.update (Dialogues.initial_message nonce st counterparty performative)
        with e | dlg1
      · rw [hu] at h
        rcases e with t | t | t | t <;> exact absurd h (by simp)
      · rw [hu] at h
        simp only [] at h
        simp only [Prod.mk.injEq, Except.ok.injEq] at h
        obtain ⟨hst', hm, hdlg⟩ := h
        subst hm
        subst hdlg
        rcases update_ok_cases dlg0 _ dlg1 hu with ⟨hself, hd1⟩ | ⟨hself, hd1⟩
        · have hres : dlg0.resolve_sender
              (Dialogues.initial_message nonce st counterparty performative)
              = Dialogues.initial_message nonce st counterparty performative := by
            simp [Dialogue.resolve_sender, Dialogues.initial_message]
          have hlbl1 : dlg1.dialogue_label
              = (⟨(nonce, UNASSIGNED_DIALOGUE_REFERENCE), counterparty,
                  st.agent_address⟩ : DialogueLabel) := by
            rw [hd1, hdlg0]
            rfl
          refine ⟨rfl, rfl, rfl, rfl, rfl, ?_, hlbl1, ?_, ?_, ?_⟩
          · rw [hd1, hdlg0]
            simp [Dialogue.init, DialogueLabel.dialogue_opponent_addr,
              DialogueLabel.dialogue_starter_addr, hcp]
          · rw [← hst', hst1]
            simp only
            rw [hlbl1, dictGet_insert_self]
          · rw [hd1, hres, hdlg0]
            rfl
          · rw [hd1, hdlg0]
            rfl
        · exfalso
          rw [hdlg0] at hself
          simp [Dialogue.is_message_by_self, Dialogue.resolve_sender,
            Dialogues.initial_message, Dialogue.init] at hself

/-- The dialogue that `Dialogues.create` would create under `rejectingRules`
before rolling it back. -/
def c6_dlg : Dialogue :=
  Dialogue.init ⟨("y", ""), "O", "A"⟩ "A" 0 rejectingRules

/-- Concrete instance of the C6 theorem: under the rejecting protocol, the
create call fails with the `SyntaxError` and leaves the registry untouched. -/
theorem C6_witness :
    Dialogues.create "y" (Dialogues.init "A" rejectingRules) "O" 0
      = (Dialogues.init "A" rejectingRules,
          .error (.syntaxError
            ("Cannot create a dialogue with the specified performative and contents."))) :=
  C6_create_atomic_on_failure "y" (Dialogues.init "A" rejectingRules) "O" 0 c6_dlg
    "rejected by the protocol hook" (by decide) rfl rfl

/-- Concrete instance of the C7 theorem, at the `selfSt` creation scenario. -/
theorem C7_witness :
    selfM1.message_id = 1 ∧ selfM1.target = 0
      ∧ selfM1.dialogue_reference = ("x", UNASSIGNED_DIALOGUE_REFERENCE)
      ∧ selfM1.sender = some "A" ∧ selfM1.«to» = "O"
      ∧ selfD.is_self_initiated = true
      ∧ selfD.dialogue_label = ⟨("x", UNASSIGNED_DIALOGUE_REFERENCE), "O", "A"⟩
      ∧ dictGet selfSt.dialogues_by_dialogue_label
          ⟨("x", UNASSIGNED_DIALOGUE_REFERENCE), "O", "A"⟩ = some selfD
      ∧ selfD.outgoing_messages = [selfM1] ∧ selfD.incoming_messages = [] :=
  C7_create_success_shape "x" (Dialogues.init "A" exampleRules) "O" 0 selfSt selfM1 selfD
    (by decide) rfl

/-- C4 as stated is false on the code: at this input the message reference
is not the empty pair, a dialogue in the registry matches the reconstructed
label (and would even accept the message), yet `Dialogues.update` neither
returns that dialogue nor `None` — it fails the completeness assertion,
because the message carries an incomplete reference with id 2. -/
theorem C4_claim_counterexample :
    contM2.dialogue_reference ≠ ("", "")
      ∧ Dialogues.get_dialogue selfSt contM2 = .ok (some selfD)
      ∧ Dialogue.update selfD contM2 = .ok selfD2
      ∧ (Dialogues.update "n8" selfSt contM2).2
          = .error (.assertionError ("Only complete dialogue references allowed.")) :=
  ⟨by decide, rfl, rfl, rfl⟩

/-- C4 (amended): whenever `Dialogues.update` on an inbound message returns
normally, the result is `None` exactly when the reference is the empty pair,
or the attribution phase produced no dialogue, or the attributed dialogue
rejected the message with `InvalidDialogueMessage`; otherwise the result is
the attributed dialogue with the message appended. -/
theorem C4_update_none_iff (nonce : String) (st : Dialogues) (m : Message) (s : String)
    (st' : Dialogues) (r : Option Dialogue)
    (hsender : m.sender = some s) (hother : s ≠ st.agent_address)
    (hok : Dialogues.update nonce st m = (st', .ok r)) :
    (r = none ↔
        (m.dialogue_reference = ("", "")
          ∨ (st.attributed_dialogue nonce m s).2 = .ok none
          ∨ ∃ d msg, (st.attributed_dialogue nonce m s).2 = .ok (some d)
              ∧ Dialogue.update d m = .error (.invalidMessage msg)))
      ∧ (∀ d', r = some d' →
          ∃ d, (st.attributed_dialogue nonce m s).2 = .ok (some d)
            ∧ Dialogue.update d m = .ok d') := by
  unfold Dialogues.update at hok
  by_cases hagent : st.agent_address = ""
  · simp [hagent] at hok
  · rw [if_neg hagent] at hok
    rw [hsender] at hok
    simp only [] at hok
    rw [if_neg hother] at hok
    rcases ha : (st.attributed_dialogue nonce m s).2 with e | od
    · rw [ha] at hok
      exact absurd hok (by simp)
    · rw [ha] at hok
      rcases od with _ | dialogue
      · simp only [Prod.mk.injEq, Except.ok.injEq] at hok
        obtain ⟨_, hr⟩ := hok
        subst hr
        constructor
        · simp only [true_iff]
          exact Or.inr (Or.inl (by simp))
        · intro d' hd'
          exact absurd hd' (by simp)
      · try simp only [] at hok
        rcases hu : dialogue.update m with e | d'
        · rw [hu] at hok
          try simp only [] at hok
          rcases e with t | t | t | t
          · simp only [Prod.mk.injEq, Except.ok.injEq] at hok
            obtain ⟨_, hr⟩ := hok
            subst hr
            constructor
            · simp only [true_iff]
              exact Or.inr (Or.inr ⟨dialogue, t, rfl, hu⟩)
            · intro d' hd'
              exact absurd hd' (by simp)
          · exact absurd hok (by simp)
          · exact absurd hok (by simp)
          · exact absurd hok (by simp)
        · rw [hu] at hok
          try simp only [] at hok
          simp only [Prod.mk.injEq, Except.ok.injEq] at hok
          obtain ⟨_, hr⟩ := hok
          subst hr
          constructor
          · constructor
            · intro habs
              exact absurd habs (by simp)
            · intro hrhs
              exfalso
              rcases hrhs with habs | habs | ⟨d, msg, hd, hupd⟩
              · unfold Dialogues.attributed_dialogue at ha
                simp [habs, UNASSIGNED_DIALOGUE_REFERENCE] at ha
              · exact absurd habs (by simp)
              · simp only [Except.ok.injEq, Option.some.injEq] at hd
                subst hd
                rw [hu] at hupd
                exact absurd hupd (by simp)
          · intro d'' hd''
            simp only [Option.some.injEq] at hd''
            subst hd''
            exact ⟨dialogue, rfl, hu⟩

/-- Concrete instance of the amended C4 theorem: the inbound opening message
`c1_m1` is attributed to the freshly created opponent-initiated dialogue and
appended there. -/
theorem C4_witness :
    ∃ d, ((Dialogues.init "A" exampleRules).attributed_dialogue "n1" c1_m1 "O").2
        = .ok (some d) ∧ Dialogue.update d c1_m1 = .ok c1_d1 :=
  (C4_update_none_iff "n1" (Dialogues.init "A" exampleRules) c1_m1 "O" c1_st1 (some c1_d1)
    rfl (by decide) rfl).2 c1_d1 rfl

/-- Ordered insertion by message id, the building block of the merged
chronological log. -/
def insertById (m : Message) : List Message → List Message
  | [] => [m]
  | b :: bs =>
    if m.message_id ≤ b.message_id then m :: b :: bs else b :: insertById m bs

/-- Sort a message list by message id (insertion sort). -/
def sortById (l : List Message) : List Message :=
  l.foldr insertById []

/-- The merged chronological log of a dialogue: outgoing and incoming
messages merged by message id. -/
def Dialogue.chronological (d : Dialogue) : List Message :=
  sortById d.all_messages

theorem mem_insertById (m x : Message) (l : List Message) :
    x ∈ insertById m l ↔ x = m ∨ x ∈ l := by
  induction l with
  | nil => simp [insertById]
  | cons b bs ih =>
    by_cases h : m.message_id ≤ b.message_id
    · simp [insertById, h]
    · simp only [insertById, h, if_false, List.mem_cons, ih]
      tauto

theorem mem_sortById (x : Message) (l : List Message) :
    x ∈ sortById l ↔ x ∈ l := by
  induction l with
  | nil => simp [sortById]
  | cons a as ih =>
    simp only [sortById, List.foldr_cons] at ih ⊢
    rw [mem_insertById, ih, List.mem_cons]

theorem insertById_append_max (m : Message) (l : List Message)
    (h : ∀ x ∈ l, x.message_id < m.message_id) :
    insertById m l = l ++ [m] := by
  induction l with
  | nil => rfl
  | cons b bs ih =>
    have hb : ¬ m.message_id ≤ b.message_id := by
      have := h b (List.mem_cons_self b bs)
      omega
    simp only [insertById, hb, if_false, List.cons_append]
    rw [ih (fun x hx => h x (List.mem_cons_of_mem b hx))]

theorem insertById_concat_le (a m : Message) (l : List Message)
    (h : a.message_id ≤ m.message_id) :
    insertById a (l ++ [m]) = insertById a l ++ [m] := by
  induction l with
  | nil => simp [insertById, h]
  | cons b bs ih =>
    by_cases hb : a.message_id ≤ b.message_id
    · simp [insertById, hb]
    · simp only [List.cons_append, insertById, hb, if_false, List.append_eq, ih]

theorem foldr_insertById_concat (out l : List Message) (m : Message)
    (h : ∀ a ∈ out, a.message_id ≤ m.message_id) :
    List.foldr insertById (l ++ [m]) out = List.foldr insertById l out ++ [m] := by
  induction out with
  | nil => rfl
  | cons a as ih =>
    simp only [List.foldr_cons]
    rw [ih (fun x hx => h x (List.mem_cons_of_mem a hx)),
      insertById_concat_le a m _ (h a (List.mem_cons_self a as))]

/-- The consecutive-message invariant carried along every dialogue: the
chronological log's ids are exactly `1 .. n` (`n` the total number of logged
messages), every logged message's target is its id minus one, and the last
message carries id `n`. -/
def ChronInv (d : Dialogue) : Prop :=
  (Dialogue.chronological d).map Message.message_id
      = List.range' 1 d.all_messages.length
    ∧ (∀ x ∈ d.all_messages, x.target + 1 = x.message_id)
    ∧ (∀ lm, d.last_message = some lm → lm.message_id = d.all_messages.length)

theorem last_message_none_nil (d : Dialogue) (h : d.last_message = none) :
    d.outgoing_messages = [] ∧ d.incoming_messages = [] := by
  unfold Dialogue.last_message Dialogue.last_incoming_message
    Dialogue.last_outgoing_message at h
  rcases hi : d.incoming_messages.getLast? with _ | li
  · rcases ho : d.outgoing_messages.getLast? with _ | lo
    · exact ⟨List.getLast?_eq_none_iff.mp ho, List.getLast?_eq_none_iff.mp hi⟩
    · rw [hi, ho] at h
      exact absurd h (by simp)
  · rcases ho : d.outgoing_messages.getLast? with _ | lo
    · rw [hi, ho] at h
      exact absurd h (by simp)
    · rw [hi, ho] at h
      exact absurd h (by simp)

theorem last_message_mem (d : Dialogue) (lm : Message) (h : d.last_message = some lm) :
    lm ∈ d.all_messages := by
  unfold Dialogue.last_message Dialogue.last_incoming_message
    Dialogue.last_outgoing_message at h
  rcases hi : d.incoming_messages.getLast? with _ | li
  · rcases ho : d.outgoing_messages.getLast? with _ | lo
    · rw [hi, ho] at h
      exact absurd h (by simp)
    · rw [hi, ho] at h
      simp only [Option.some.injEq] at h
      subst h
      exact List.mem_append_left _ (List.mem_of_getLast?_eq_some ho)
  · rcases ho : d.outgoing_messages.getLast? with _ | lo
    · rw [hi, ho] at h
      simp only [Option.some.injEq] at h
      subst h
      exact List.mem_append_right _ (List.mem_of_getLast?_eq_some hi)
    · rw [hi, ho] at h
      simp only [Option.some.injEq] at h
      by_cases hgt : lo.message_id > li.message_id
      · rw [if_pos hgt] at h
        subst h
        exact List.mem_append_left _ (List.mem_of_getLast?_eq_some ho)
      · rw [if_neg hgt] at h
        subst h
        exact List.mem_append_right _ (List.mem_of_getLast?_eq_some hi)

theorem sortById_concat_outgoing (out inc : List Message) (m : Message)
    (hout : ∀ x ∈ out, x.message_id < m.message_id)
    (hinc : ∀ x ∈ inc, x.message_id < m.message_id) :
    sortById ((out ++ [m]) ++ inc) = sortById (out ++ inc) ++ [m] := by
  unfold sortById
  rw [List.foldr_append, List.foldr_append, List.foldr_append]
  simp only [List.foldr_cons, List.foldr_nil]
  have hmax : insertById m (List.foldr insertById [] inc)
      = List.foldr insertById [] inc ++ [m] :=
    insertById_append_max m _ (fun x hx => hinc x ((mem_sortById x inc).mp hx))
  rw [hmax]
  exact foldr_insertById_concat out _ m (fun a ha => Nat.le_of_lt (hout a ha))

theorem sortById_concat_incoming (out inc : List Message) (m : Message)
    (hout : ∀ x ∈ out, x.message_id < m.message_id)
    (hinc : ∀ x ∈ inc, x.message_id < m.message_id) :
    sortById (out ++ (inc ++ [m])) = sortById (out ++ inc) ++ [m] := by
  unfold sortById
  have hinner : List.foldr insertById [] (inc ++ [m])
      = List.foldr insertById [] inc ++ [m] := by
    rw [List.foldr_append]
    simp only [List.foldr_cons, List.foldr_nil]
    have hm : insertById m ([] : List Message) = [] ++ [m] := rfl
    rw [hm]
    exact foldr_insertById_concat inc _ m (fun a ha => Nat.le_of_lt (hinc a ha))
  rw [List.foldr_append, hinner, List.foldr_append]
  exact foldr_insertById_concat out _ m (fun a ha => Nat.le_of_lt (hout a ha))

theorem chroninv_update (d : Dialogue) (m : Message) (d' : Dialogue)
    (hInv : ChronInv d) (h : Dialogue.update d m = .ok d') : ChronInv d' := by
  obtain ⟨t, hv⟩ := update_ok_valid d m d' h
  obtain ⟨⟨t1, hb⟩, hadd⟩ := valid_next_ok_true _ _ _ hv
  obtain ⟨hmap, htgt, hlast⟩ := hInv
  rcases hl : d.last_message with _ | lm
  · -- initial message
    obtain ⟨hout, hinc⟩ := last_message_none_nil d hl
    obtain ⟨_, hid1, htg0, _⟩ := basic_ok_initial d _ t1 hl hb
    rcases update_ok_cases d m d' h with ⟨_, hd'⟩ | ⟨_, hd'⟩ <;>
      subst hd' <;>
      refine ⟨?_, ?_, ?_⟩
    · simp [Dialogue.chronological, Dialogue.all_messages, sortById, insertById,
        hout, hinc, hid1, STARTING_MESSAGE_ID, List.range']
    · intro x hx
      simp [Dialogue.all_messages, hout, hinc] at hx
      subst hx
      rw [htg0, hid1]
    · intro lmx hlmx
      simp [Dialogue.last_message, Dialogue.last_incoming_message,
        Dialogue.last_outgoing_message, hout, hinc] at hlmx
      subst hlmx
      simp [Dialogue.all_messages, hout, hinc, hid1, STARTING_MESSAGE_ID]
    · simp [Dialogue.chronological, Dialogue.all_messages, sortById, insertById,
        hout, hinc, hid1, STARTING_MESSAGE_ID, List.range']
    · intro x hx
      simp [Dialogue.all_messages, hout, hinc] at hx
      subst hx
      rw [htg0, hid1]
    · intro lmx hlmx
      simp [Dialogue.last_message, Dialogue.last_incoming_message,
        Dialogue.last_outgoing_message, hout, hinc] at hlmx
      subst hlmx
      simp [Dialogue.all_messages, hout, hinc, hid1, STARTING_MESSAGE_ID]
  · -- continuation message
    have hlmn := hlast lm hl
    have hlmem := last_message_mem d lm hl
    have hlmt := htgt lm hlmem
    obtain ⟨_, hid, _, _, _⟩ := basic_ok_next d _ t1 lm hl hb
    have htg : (d.resolve_sender m).target = lm.target + 1 := additional_ok d _ lm hl hadd
    have hbound : ∀ x ∈ d.all_messages, x.message_id ≤ d.all_messages.length := by
      intro x hx
      have hxc : x ∈ Dialogue.chronological d := (mem_sortById x _).mpr hx
      have hxm : x.message_id ∈ (Dialogue.chronological d).map Message.message_id :=
        List.mem_map_of_mem _ hxc
      rw [hmap] at hxm
      have := List.mem_range'_1.mp hxm
      omega
    have hmid : (d.resolve_sender m).message_id = d.all_messages.length + 1 := by
      omega
    have houtb : ∀ x ∈ d.outgoing_messages,
        x.message_id < (d.resolve_sender m).message_id := by
      intro x hx
      have := hbound x (List.mem_append_left _ hx)
      omega
    have hincb : ∀ x ∈ d.incoming_messages,
        x.message_id < (d.resolve_sender m).message_id := by
      intro x hx
      have := hbound x (List.mem_append_right _ hx)
      omega
    rcases update_ok_cases d m d' h with ⟨hself, hd'⟩ | ⟨hself, hd'⟩
    · subst hd'
      have hchron : Dialogue.chronological
          { d with outgoing_messages := d.outgoing_messages ++ [d.resolve_sender m] }
          = Dialogue.chronological d ++ [d.resolve_sender m] := by
        unfold Dialogue.chronological Dialogue.all_messages
        exact sortById_concat_outgoing _ _ _ houtb hincb
      have hlen : (Dialogue.all_messages
          { d with outgoing_messages := d.outgoing_messages ++ [d.resolve_sender m] }).length
          = d.all_messages.length + 1 := by
        simp [Dialogue.all_messages]
        omega
      have hlast' : Dialogue.last_message
          { d with outgoing_messages := d.outgoing_messages ++ [d.resolve_sender m] }
          = some (d.resolve_sender m) := by
        unfold Dialogue.last_message Dialogue.last_incoming_message
          Dialogue.last_outgoing_message
        simp only [List.getLast?_concat]
        rcases hi : d.incoming_messages.getLast? with _ | li
        · rfl
        · have hli := hincb li (List.mem_of_getLast?_eq_some hi)
          simp [hli]
      refine ⟨?_, ?_, ?_⟩
      · rw [hchron, hlen, List.map_append, hmap, List.range'_concat]
        simp only [List.map_cons, List.map_nil, Nat.one_mul]
        rw [hmid]
        simp [Nat.add_comm]
      · intro x hx
        simp only [Dialogue.all_messages, List.append_assoc, List.mem_append,
          List.mem_singleton] at hx
        rcases hx with hx | hx | hx
        · exact htgt x (List.mem_append_left _ hx)
        · subst hx
          omega
        · exact htgt x (List.mem_append_right _ hx)
      · intro lmx hlmx
        rw [hlast'] at hlmx
        simp only [Option.some.injEq] at hlmx
        subst hlmx
        rw [hlen]
        exact hmid
    · subst hd'
      have hchron : Dialogue.chronological
          { d with incoming_messages := d.incoming_messages ++ [d.resolve_sender m] }
          = Dialogue.chronological d ++ [d.resolve_sender m] := by
        unfold Dialogue.chronological Dialogue.all_messages
        exact sortById_concat_incoming _ _ _ houtb hincb
      have hlen : (Dialogue.all_messages
          { d with incoming_messages := d.incoming_messages ++ [d.resolve_sender m] }).length
          = d.all_messages.length + 1 := by
        simp [Dialogue.all_messages]
        omega
      have hlast' : Dialogue.last_message
          { d with incoming_messages := d.incoming_messages ++ [d.resolve_sender m] }
          = some (d.resolve_sender m) := by
        unfold Dialogue.last_message Dialogue.last_incoming_message
          Dialogue.last_outgoing_message
        simp only [List.getLast?_concat]
        rcases ho : d.outgoing_messages.getLast? with _ | lo
        · rfl
        · have hlo := houtb lo (List.mem_of_getLast?_eq_some ho)
          simp only []
          rw [if_neg (by omega)]
      refine ⟨?_, ?_, ?_⟩
      · rw [hchron, hlen, List.map_append, hmap, List.range'_concat]
        simp only [List.map_cons, List.map_nil, Nat.one_mul]
        rw [hmid]
        simp [Nat.add_comm]
      · intro x hx
        simp only [Dialogue.all_messages, List.mem_append, List.mem_singleton] at hx
        rcases hx with hx | hx | hx
        · exact htgt x (List.mem_append_left _ hx)
        · exact htgt x (List.mem_append_right _ hx)
        · subst hx
          omega
      · intro lmx hlmx
        rw [hlast'] at hlmx
        simp only [Option.some.injEq] at hlmx
        subst hlmx
        rw [hlen]
        exact hmid

theorem reply_ok_update (d : Dialogue) (tm : Message) (p : Nat) (d' : Dialogue) (m : Message)
    (h : Dialogue.reply d tm p = .ok (d', m)) : Dialogue.update d m = .ok d' := by
  unfold Dialogue.reply at h
  rcases hl : d.last_message with _ | last
  · rw [hl] at h
    exact absurd h (by simp)
  · rw [hl] at h
    try simp only [] at h
    split at h
    · exact absurd h (by simp)
    · rename_i d'' hu
      simp only [Except.ok.injEq, Prod.mk.injEq] at h
      obtain ⟨h1, h2⟩ := h
      subst h1
      subst h2
      exact hu

theorem chroninv_of_reachable (rules : ProtocolRules) (d : Dialogue)
    (h : DialogueReachable rules d) : ChronInv d := by
  induction h with
  | start lbl agent role =>
    refine ⟨rfl, ?_, ?_⟩
    · intro x hx
      exact absurd hx (by simp [Dialogue.all_messages, Dialogue.init])
    · intro lm hlm
      exact absurd hlm (by simp [Dialogue.last_message, Dialogue.last_incoming_message,
        Dialogue.last_outgoing_message, Dialogue.init])
  | step d m d' _ hupd ih => exact chroninv_update d m d' ih hupd
  | replyStep d tm p d' m _ hrep ih =>
    exact chroninv_update d m d' ih (reply_ok_update d tm p d' m hrep)

/-- C2: in every dialogue reachable by `update` and `reply` calls, any two
consecutive entries of the merged chronological log advance both the message
id and the target by exactly one; and a message whose id is not the last id
plus one, or whose target is not the last target plus one, is never accepted
by `Dialogue.update`. -/
theorem C2_consecutive_ids_and_targets (rules : ProtocolRules) (d : Dialogue)
    (h : DialogueReachable rules d) :
    (∀ k a b, (Dialogue.chronological d)[k]? = some a →
        (Dialogue.chronological d)[k + 1]? = some b →
        b.message_id = a.message_id + 1 ∧ b.target = a.target + 1)
      ∧ (∀ m lm d', d.last_message = some lm →
          (m.message_id ≠ lm.message_id + 1 ∨ m.target ≠ lm.target + 1) →
          Dialogue.update d m ≠ .ok d') := by
  obtain ⟨hmap, htgt, _⟩ := chroninv_of_reachable rules d h
  constructor
  · intro k a b ha hb
    have hka : k < (Dialogue.chronological d).length := by
      by_contra hk
      rw [List.getElem?_eq_none (by omega)] at ha
      exact absurd ha (by simp)
    have hkb : k + 1 < (Dialogue.chronological d).length := by
      by_contra hk
      rw [List.getElem?_eq_none (by omega)] at hb
      exact absurd hb (by simp)
    have hlen : (Dialogue.chronological d).length = d.all_messages.length := by
      have := congrArg List.length hmap
      simpa using this
    have hida : (List.range' 1 d.all_messages.length)[k]? = some a.message_id := by
      rw [← hmap, List.getElem?_map, ha]
      rfl
    have hidb : (List.range' 1 d.all_messages.length)[k + 1]? = some b.message_id := by
      rw [← hmap, List.getElem?_map, hb]
      rfl
    rw [List.getElem?_range' 1 1 (by omega)] at hida
    rw [List.getElem?_range' 1 1 (by omega)] at hidb
    simp only [Option.some.injEq] at hida hidb
    have hamem : a ∈ d.all_messages :=
      (mem_sortById a _).mp (List.getElem?_mem ha)
    have hbmem : b ∈ d.all_messages :=
      (mem_sortById b _).mp (List.getElem?_mem hb)
    have hat := htgt a hamem
    have hbt := htgt b hbmem
    omega
  · intro m lm d' hl hbad hupd
    obtain ⟨t, hv⟩ := update_ok_valid d m d' hupd
    obtain ⟨⟨t1, hb⟩, hadd⟩ := valid_next_ok_true _ _ _ hv
    obtain ⟨_, hid, _, _, _⟩ := basic_ok_next d _ t1 lm hl hb
    have htg := additional_ok d _ lm hl hadd
    obtain ⟨_, hfid, hft, _, _⟩ := resolve_sender_fields d m
    rw [hfid] at hid
    rw [hft] at htg
    rcases hbad with hbad | hbad
    · exact hbad hid
    · exact hbad htg

/-- Concrete instance of the C2 theorem, on the two-message dialogue
`selfD2`: the second log entry advances id and target by one. -/
theorem C2_witness :
    contM2.message_id = selfM1.message_id + 1 ∧ contM2.target = selfM1.target + 1 :=
  (C2_consecutive_ids_and_targets exampleRules selfD2
    (DialogueReachable.step selfD contM2 selfD2
      (DialogueReachable.step (Dialogue.init ⟨("x", ""), "O", "A"⟩ "A" 0 exampleRules)
        selfM1 selfD (DialogueReachable.start _ _ _) rfl)
      rfl)).1 0 selfM1 contM2 rfl rfl

theorem dictGet_insert_isSome {κ α : Type} [DecidableEq κ] (l : List (κ × α)) (k k' : κ) (v : α)
    (h : (dictGet l k').isSome = true) : (dictGet (dictInsert l k v) k').isSome = true := by
  by_cases hk : k' = k
  · subst hk
    rw [dictGet_insert_self]
    rfl
  · rw [dictGet_insert_ne l k k' v hk]
    exact h

theorem dictGet_none_remove {κ α : Type} [DecidableEq κ] (l : List (κ × α)) (k k' : κ)
    (h : dictGet l k' = none) : dictGet (dictRemove l k) k' = none := by
  rw [dictGet_eq_none_iff] at h ⊢
  exact fun p hp => h p (mem_dictRemove l k p hp)

theorem dictGet_insert_fresh_preserve {κ α : Type} [DecidableEq κ] (l : List (κ × α))
    (k k' : κ) (v v' : α) (hfresh : dictGet l k = none) (h : dictGet l k' = some v') :
    dictGet (dictInsert l k v) k' = some v' := by
  have hk : k' ≠ k := by
    intro he
    subst he
    rw [h] at hfresh
    exact absurd hfresh (by simp)
  rw [dictGet_insert_ne l k k' v hk]
  exact h

/-- The registry invariant carried along every reachable registry state:
the label map has distinct keys, each stored dialogue's current label is its
key, an incomplete key's starter is the owning agent, promotion entries map
incomplete labels to complete ones, and a promoted incomplete label is no
longer a key of the label map while its complete form is. -/
def RegInv (st : Dialogues) : Prop :=
  (st.dialogues_by_dialogue_label.map Prod.fst).Nodup
    ∧ (∀ p ∈ st.dialogues_by_dialogue_label, p.2.dialogue_label = p.1)
    ∧ (∀ p ∈ st.dialogues_by_dialogue_label,
        p.1.dialogue_reference.2 = "" → p.1.dialogue_starter_addr = st.agent_address)
    ∧ (∀ q ∈ st.incomplete_to_complete_dialogue_labels,
        q.1.dialogue_reference.2 = "" ∧ q.2.dialogue_reference.2 ≠ "")
    ∧ (∀ q ∈ st.incomplete_to_complete_dialogue_labels,
        dictGet st.dialogues_by_dialogue_label q.1 = none
          ∧ (dictGet st.dialogues_by_dialogue_label q.2).isSome = true)

theorem reginv_create_inner (st : Dialogues) (incLbl : DialogueLabel) (role : Nat)
    (comp : Option DialogueLabel)
    (hInv : RegInv st)
    (hshape : incLbl.dialogue_reference.2 = "")
    (hnonecase : comp = none → incLbl.dialogue_starter_addr = st.agent_address)
    (hsomecase : ∀ c, comp = some c → c.dialogue_reference.2 ≠ ""
        ∧ dictGet st.dialogues_by_dialogue_label incLbl = none) :
    RegInv (st.create_inner incLbl role comp).1
      ∧ (st.create_inner incLbl role comp).1.agent_address = st.agent_address
      ∧ (∀ Li Lc, dictGet st.incomplete_to_complete_dialogue_labels Li = some Lc →
          dictGet (st.create_inner incLbl role comp).1.incomplete_to_complete_dialogue_labels Li
            = some Lc) := by
  obtain ⟨hnd, hkey, haux, hpshape, hdisj⟩ := hInv
  unfold Dialogues.create_inner
  by_cases hpromo : (dictGet st.incomplete_to_complete_dialogue_labels incLbl).isSome = true
  · rw [if_pos hpromo]
    exact ⟨⟨hnd, hkey, haux, hpshape, hdisj⟩, rfl, fun Li Lc h => h⟩
  · rw [if_neg hpromo]
    have hpromo' : dictGet st.incomplete_to_complete_dialogue_labels incLbl = none :=
      Option.not_isSome_iff_eq_none.mp hpromo
    rcases comp with _ | c
    · -- self-initiated: dialogue stored under the incomplete label itself
      simp only []
      by_cases hdl : (dictGet st.dialogues_by_dialogue_label incLbl).isSome = true
      · rw [if_pos hdl]
        exact ⟨⟨hnd, hkey, haux, hpshape, hdisj⟩, rfl, fun Li Lc h => h⟩
      · rw [if_neg hdl]
        refine ⟨⟨keys_nodup_dictInsert _ _ _ hnd, ?_, ?_, hpshape, ?_⟩, rfl, fun Li Lc h => h⟩
        · intro p hp
          rcases mem_dictInsert _ _ _ p hp with rfl | hp'
          · rfl
          · exact hkey p hp'
        · intro p hp
          rcases mem_dictInsert _ _ _ p hp with rfl | hp'
          · intro _
            exact hnonecase rfl
          · exact haux p hp'
        · intro q hq
          have hne : q.1 ≠ incLbl :=
            (dictGet_eq_none_iff _ _).mp hpromo' q hq
          refine ⟨?_, ?_⟩
          · rw [dictGet_insert_ne _ _ _ _ hne]
            exact (hdisj q hq).1
          · exact dictGet_insert_isSome _ _ _ _ (hdisj q hq).2
    · -- opponent-initiated: promotion recorded, dialogue stored under `c`
      obtain ⟨hc2, hfreshinc⟩ := hsomecase c rfl
      simp only []
      have hpromoext : ∀ Li Lc, dictGet st.incomplete_to_complete_dialogue_labels Li = some Lc →
          dictGet (dictInsert st.incomplete_to_complete_dialogue_labels incLbl c) Li
            = some Lc :=
        fun Li Lc h => dictGet_insert_fresh_preserve _ _ _ _ _ hpromo' h
      have hpshape' : ∀ q ∈ dictInsert st.incomplete_to_complete_dialogue_labels incLbl c,
          q.1.dialogue_reference.2 = "" ∧ q.2.dialogue_reference.2 ≠ "" := by
        intro q hq
        rcases mem_dictInsert _ _ _ q hq with rfl | hq'
        · exact ⟨hshape, hc2⟩
        · exact hpshape q hq'
      by_cases hdl : (dictGet st.dialogues_by_dialogue_label c).isSome = true
      · rw [if_pos hdl]
        refine ⟨⟨hnd, hkey, haux, hpshape', ?_⟩, rfl, hpromoext⟩
        · intro q hq
          rcases mem_dictInsert _ _ _ q hq with rfl | hq'
          · exact ⟨hfreshinc, hdl⟩
          · exact hdisj q hq'
      · rw [if_neg hdl]
        have hcinc : incLbl ≠ c := by
          intro he
          rw [he] at hshape
          exact hc2 hshape
        refine ⟨⟨keys_nodup_dictInsert _ _ _ hnd, ?_, ?_, hpshape', ?_⟩, rfl, hpromoext⟩
        · intro p hp
          rcases mem_dictInsert _ _ _ p hp with rfl | hp'
          · rfl
          · exact hkey p hp'
        · intro p hp
          rcases mem_dictInsert _ _ _ p hp with rfl | hp'
          · intro habs
            exact absurd habs hc2
          · exact haux p hp'
        · intro q hq
          rcases mem_dictInsert _ _ _ q hq with rfl | hq'
          · refine ⟨?_, ?_⟩
            · rw [dictGet_insert_ne _ _ _ _ hcinc]
              exact hfreshinc
            · rw [dictGet_insert_self]
              rfl
          · have hne : q.1 ≠ c := by
              intro he
              have := (hpshape q hq').1
              rw [he] at this
              exact hc2 this
            refine ⟨?_, ?_⟩
            · rw [dictGet_insert_ne _ _ _ _ hne]
              exact (hdisj q hq').1
            · exact dictGet_insert_isSome _ _ _ _ (hdisj q hq').2

theorem reginv_complete_dialogue_reference (st : Dialogues) (m : Message)
    (hInv : RegInv st) :
    RegInv (st.complete_dialogue_reference m).1
      ∧ (st.complete_dialogue_reference m).1.agent_address = st.agent_address
      ∧ (∀ Li Lc, dictGet st.incomplete_to_complete_dialogue_labels Li = some Lc →
          dictGet (st.complete_dialogue_reference m).1.incomplete_to_complete_dialogue_labels Li
            = some Lc) := by
  obtain ⟨hnd, hkey, haux, hpshape, hdisj⟩ := hInv
  by_cases href : m.dialogue_reference.1 = UNASSIGNED_DIALOGUE_REFERENCE
      ∨ m.dialogue_reference.2 = UNASSIGNED_DIALOGUE_REFERENCE
  · have hval : st.complete_dialogue_reference m
        = (st, some (.assertionError ("Only complete dialogue references allowed."))) := by
      unfold Dialogues.complete_dialogue_reference
      rw [if_pos href]
    rw [hval]
    exact ⟨⟨hnd, hkey, haux, hpshape, hdisj⟩, rfl, fun Li Lc h => h⟩
  · push_neg at href
    rcases hs : m.sender with _ | s
    · have hval : st.complete_dialogue_reference m
          = (st, some (.assertionError ("sender is not set"))) := by
        unfold Dialogues.complete_dialogue_reference
        rw [if_neg (by push_neg; exact href), hs]
      rw [hval]
      exact ⟨⟨hnd, hkey, haux, hpshape, hdisj⟩, rfl, fun Li Lc h => h⟩
    · rcases hdlLi : dictGet st.dialogues_by_dialogue_label
          ⟨(m.dialogue_reference.1, UNASSIGNED_DIALOGUE_REFERENCE), s, st.agent_address⟩
        with _ | dialogue
      · have hval : (st.complete_dialogue_reference m).1 = st := by
          unfold Dialogues.complete_dialogue_reference
          rw [if_neg (by push_neg; exact href), hs]
          simp only []
          rw [hdlLi]
        rw [hval]
        exact ⟨⟨hnd, hkey, haux, hpshape, hdisj⟩, rfl, fun Li Lc h => h⟩
      · rcases hprLi : dictGet st.incomplete_to_complete_dialogue_labels
            ⟨(m.dialogue_reference.1, UNASSIGNED_DIALOGUE_REFERENCE), s, st.agent_address⟩
          with _ | lc
        · -- the interesting branch: pop, relabel, reinsert, record promotion
          have hkeyd : dialogue.dialogue_label
              = (⟨(m.dialogue_reference.1, UNASSIGNED_DIALOGUE_REFERENCE), s,
                  st.agent_address⟩ : DialogueLabel) :=
            hkey _ (dictGet_some_mem _ _ _ hdlLi)
          have hupd : dialogue.update_dialogue_label
              ⟨m.dialogue_reference, s, st.agent_address⟩
              = .ok { dialogue with
                  dialogue_label := ⟨m.dialogue_reference, s, st.agent_address⟩ } := by
            unfold Dialogue.update_dialogue_label
            rw [if_pos]
            constructor
            · rw [hkeyd]
            · exact href.2
          have hval : st.complete_dialogue_reference m
              = ({ st with
                    dialogues_by_dialogue_label :=
                      dictInsert
                        (dictRemove st.dialogues_by_dialogue_label
                          ⟨(m.dialogue_reference.1, UNASSIGNED_DIALOGUE_REFERENCE), s,
                            st.agent_address⟩)
                        ⟨m.dialogue_reference, s, st.agent_address⟩
                        { dialogue with
                            dialogue_label := ⟨m.dialogue_reference, s, st.agent_address⟩ }
                    incomplete_to_complete_dialogue_labels :=
                      dictInsert st.incomplete_to_complete_dialogue_labels
                        ⟨(m.dialogue_reference.1, UNASSIGNED_DIALOGUE_REFERENCE), s,
                          st.agent_address⟩
                        ⟨m.dialogue_reference, s, st.agent_address⟩ }, none) := by
            unfold Dialogues.complete_dialogue_reference
            rw [if_neg (by push_neg; exact href), hs]
            simp only []
            rw [hdlLi, hprLi]
            simp only [DialogueLabel.dialogue_opponent_addr, DialogueLabel.dialogue_starter_addr]
            rw [hupd]
          have hLine : (⟨(m.dialogue_reference.1, UNASSIGNED_DIALOGUE_REFERENCE), s,
              st.agent_address⟩ : DialogueLabel)
              ≠ ⟨m.dialogue_reference, s, st.agent_address⟩ := by
            intro he
            have h2 : (UNASSIGNED_DIALOGUE_REFERENCE : String) = m.dialogue_reference.2 := by
              have := congrArg (fun l => l.dialogue_reference.2) he
              simpa using this
            exact href.2 h2.symm
          rw [hval]
          refine ⟨⟨keys_nodup_dictInsert _ _ _ (keys_nodup_dictRemove _ _ hnd),
            ?_, ?_, ?_, ?_⟩, rfl, ?_⟩
          · intro p hp
            rcases mem_dictInsert _ _ _ p hp with rfl | hp'
            · rfl
            · exact hkey p (mem_dictRemove _ _ p hp')
          · intro p hp
            rcases mem_dictInsert _ _ _ p hp with rfl | hp'
            · intro habs
              exact absurd habs href.2
            · exact haux p (mem_dictRemove _ _ p hp')
          · intro q hq
            rcases mem_dictInsert _ _ _ q hq with rfl | hq'
            · exact ⟨rfl, href.2⟩
            · exact hpshape q hq'
          · intro q hq
            rcases mem_dictInsert _ _ _ q hq with rfl | hq'
            · refine ⟨?_, ?_⟩
              · rw [dictGet_insert_ne _ _ _ _ hLine]
                exact dictGet_remove_self _ _ hnd
              · rw [dictGet_insert_self]
                rfl
            · obtain ⟨hq1, hq2⟩ := hdisj q hq'
              obtain ⟨hqs1, hqs2⟩ := hpshape q hq'
              refine ⟨?_, ?_⟩
              · have hne : q.1 ≠ ⟨m.dialogue_reference, s, st.agent_address⟩ := by
                  intro he
                  have h2 := congrArg (fun l => l.dialogue_reference.2) he
                  simp only at h2
                  rw [hqs1] at h2
                  exact href.2 h2.symm
                rw [dictGet_insert_ne _ _ _ _ hne]
                exact dictGet_none_remove _ _ _ hq1
              · by_cases hq2f : q.2 = ⟨m.dialogue_reference, s, st.agent_address⟩
                · rw [hq2f, dictGet_insert_self]
                  rfl
                · rw [dictGet_insert_ne _ _ _ _ hq2f]
                  have hne2 : q.2 ≠ ⟨(m.dialogue_reference.1, UNASSIGNED_DIALOGUE_REFERENCE),
                      s, st.agent_address⟩ := by
                    intro he
                    have h2 := congrArg (fun l => l.dialogue_reference.2) he
                    simp only at h2
                    exact hqs2 h2
                  rw [dictGet_remove_ne _ _ _ hne2]
                  exact hq2
          · intro Li Lc h
            exact dictGet_insert_fresh_preserve _ _ _ _ _ hprLi h
        · have hval : (st.complete_dialogue_reference m).1 = st := by
            unfold Dialogues.complete_dialogue_reference
            rw [if_neg (by push_neg; exact href), hs]
            simp only []
            rw [hdlLi, hprLi]
          rw [hval]
          exact ⟨⟨hnd, hkey, haux, hpshape, hdisj⟩, rfl, fun Li Lc h => h⟩

theorem update_ok_label (d : Dialogue) (m : Message) (d' : Dialogue)
    (h : Dialogue.update d m = .ok d') : d'.dialogue_label = d.dialogue_label := by
  rcases update_ok_cases d m d' h with ⟨_, hd'⟩ | ⟨_, hd'⟩ <;> subst hd' <;> rfl

theorem reginv_writeback (st : Dialogues) (L : DialogueLabel) (d d' : Dialogue) (m : Message)
    (hInv : RegInv st)
    (hfound : dictGet st.dialogues_by_dialogue_label L = some d)
    (hupd : Dialogue.update d m = .ok d') :
    RegInv { st with
      dialogues_by_dialogue_label :=
        dictInsert st.dialogues_by_dialogue_label d'.dialogue_label d' } := by
  obtain ⟨hnd, hkey, haux, hpshape, hdisj⟩ := hInv
  have hdl : d.dialogue_label = L := hkey _ (dictGet_some_mem _ _ _ hfound)
  have hdl' : d'.dialogue_label = L := (update_ok_label d m d' hupd).trans hdl
  refine ⟨keys_nodup_dictInsert _ _ _ hnd, ?_, ?_, hpshape, ?_⟩
  · intro p hp
    rcases mem_dictInsert _ _ _ p hp with rfl | hp'
    · rfl
    · exact hkey p hp'
  · intro p hp
    rcases mem_dictInsert _ _ _ p hp with rfl | hp'
    · simp only [hdl']
      exact haux (L, d) (dictGet_some_mem _ _ _ hfound)
    · exact haux p hp'
  · intro q hq
    obtain ⟨hq1, hq2⟩ := hdisj q hq
    refine ⟨?_, ?_⟩
    · have hne : q.1 ≠ d'.dialogue_label := by
        intro he
        rw [he, hdl', hfound] at hq1
        exact absurd hq1 (by simp)
      rw [dictGet_insert_ne _ _ _ _ hne]
      exact hq1
    · exact dictGet_insert_isSome _ _ _ _ hq2

theorem reginv_remove (st : Dialogues) (L : DialogueLabel)
    (hInv : RegInv st) (hL : L.dialogue_reference.2 = "") :
    RegInv { st with
      dialogues_by_dialogue_label := dictRemove st.dialogues_by_dialogue_label L } := by
  obtain ⟨hnd, hkey, haux, hpshape, hdisj⟩ := hInv
  refine ⟨keys_nodup_dictRemove _ _ hnd, ?_, ?_, hpshape, ?_⟩
  · exact fun p hp => hkey p (mem_dictRemove _ _ p hp)
  · exact fun p hp => haux p (mem_dictRemove _ _ p hp)
  · intro q hq
    obtain ⟨hq1, hq2⟩ := hdisj q hq
    refine ⟨dictGet_none_remove _ _ _ hq1, ?_⟩
    have hne : q.2 ≠ L := by
      intro he
      have := (hpshape q hq).2
      rw [he, hL] at this
      exact this rfl
    rw [dictGet_remove_ne _ _ _ hne]
    exact hq2

theorem create_inner_ok_found (st : Dialogues) (incLbl : DialogueLabel) (role : Nat)
    (comp : Option DialogueLabel) (st' : Dialogues) (dlg : Dialogue)
    (h : st.create_inner incLbl role comp = (st', .ok dlg)) :
    dictGet st'.dialogues_by_dialogue_label dlg.dialogue_label = some dlg := by
  unfold Dialogues.create_inner at h
  by_cases hpromo : (dictGet st.incomplete_to_complete_dialogue_labels incLbl).isSome = true
  · rw [if_pos hpromo] at h
    exact absurd h (by simp)
  · rw [if_neg hpromo] at h
    rcases comp with _ | c
    · simp only [] at h
      by_cases hdl : (dictGet st.dialogues_by_dialogue_label incLbl).isSome = true
      · rw [if_pos hdl] at h
        exact absurd h (by simp)
      · rw [if_neg hdl] at h
        simp only [Prod.mk.injEq, Except.ok.injEq] at h
        obtain ⟨h1, h2⟩ := h
        subst h1
        subst h2
        exact dictGet_insert_self _ _ _
    · simp only [] at h
      by_cases hdl : (dictGet st.dialogues_by_dialogue_label c).isSome = true
      · rw [if_pos hdl] at h
        exact absurd h (by simp)
      · rw [if_neg hdl] at h
        simp only [Prod.mk.injEq, Except.ok.injEq] at h
        obtain ⟨h1, h2⟩ := h
        subst h1
        subst h2
        exact dictGet_insert_self _ _ _

theorem get_dialogue_found (st : Dialogues) (m : Message) (d : Dialogue)
    (h : Dialogues.get_dialogue st m = .ok (some d)) :
    ∃ L, dictGet st.dialogues_by_dialogue_label L = some d := by
  unfold Dialogues.get_dialogue at h
  rcases hs : m.sender with _ | s
  · rw [hs] at h
    exact absurd h (by simp)
  · rw [hs] at h
    simp only [] at h
    split at h
    · rename_i d0 heq
      simp only [Except.ok.injEq, Option.some.injEq] at h
      subst h
      exact ⟨_, heq⟩
    · simp only [Except.ok.injEq] at h
      exact ⟨_, h⟩

theorem reginv_create_self_initiated (st : Dialogues) (opp : String) (ref : String × String)
    (role : Nat) (hInv : RegInv st) :
    RegInv (st.create_self_initiated opp ref role).1
      ∧ (st.create_self_initiated opp ref role).1.agent_address = st.agent_address
      ∧ (∀ Li Lc, dictGet st.incomplete_to_complete_dialogue_labels Li = some Lc →
          dictGet (st.create_self_initiated opp ref role).1.incomplete_to_complete_dialogue_labels
            Li = some Lc) := by
  unfold Dialogues.create_self_initiated
  by_cases hra : ref.1 = UNASSIGNED_DIALOGUE_REFERENCE ∨ ref.2 ≠ UNASSIGNED_DIALOGUE_REFERENCE
  · rw [if_pos hra]
    exact ⟨hInv, rfl, fun Li Lc h => h⟩
  · rw [if_neg hra]
    push_neg at hra
    exact reginv_create_inner st ⟨ref, opp, st.agent_address⟩ role none hInv hra.2
      (fun _ => rfl) (fun c hc => absurd hc (by simp))

theorem reginv_create_opponent_initiated (nonce : String) (st : Dialogues) (opp : String)
    (ref : String × String) (role : Nat)
    (hnonce : nonce ≠ "") (hopp : opp ≠ st.agent_address) (hInv : RegInv st) :
    RegInv (st.create_opponent_initiated nonce opp ref role).1
      ∧ (st.create_opponent_initiated nonce opp ref role).1.agent_address = st.agent_address
      ∧ (∀ Li Lc, dictGet st.incomplete_to_complete_dialogue_labels Li = some Lc →
          dictGet
            (st.create_opponent_initiated nonce opp ref
              role).1.incomplete_to_complete_dialogue_labels Li = some Lc) := by
  unfold Dialogues.create_opponent_initiated
  by_cases hra : ref.1 = UNASSIGNED_DIALOGUE_REFERENCE ∨ ref.2 ≠ UNASSIGNED_DIALOGUE_REFERENCE
  · rw [if_pos hra]
    exact ⟨hInv, rfl, fun Li Lc h => h⟩
  · rw [if_neg hra]
    push_neg at hra
    refine reginv_create_inner st ⟨ref, opp, opp⟩ role (some ⟨(ref.1, nonce), opp, opp⟩) hInv
      hra.2 (fun h => absurd h (by simp)) ?_
    intro c hc
    simp only [Option.some.injEq] at hc
    subst hc
    refine ⟨hnonce, ?_⟩
    obtain ⟨_, _, haux, _, _⟩ := hInv
    rw [dictGet_eq_none_iff]
    intro p hp he
    have := haux p hp
    rw [he] at this
    exact hopp (this hra.2)

theorem create_opponent_initiated_ok_found (nonce : String) (st : Dialogues) (opp : String)
    (ref : String × String) (role : Nat) (st' : Dialogues) (dlg : Dialogue)
    (h : st.create_opponent_initiated nonce opp ref role = (st', .ok dlg)) :
    dictGet st'.dialogues_by_dialogue_label dlg.dialogue_label = some dlg := by
  unfold Dialogues.create_opponent_initiated at h
  by_cases hra : ref.1 = UNASSIGNED_DIALOGUE_REFERENCE ∨ ref.2 ≠ UNASSIGNED_DIALOGUE_REFERENCE
  · rw [if_pos hra] at h
    exact absurd h (by simp)
  · rw [if_neg hra] at h
    exact create_inner_ok_found _ _ _ _ _ _ h


theorem reginv_attributed (nonce : String) (st : Dialogues) (m : Message) (s : String)
    (hnonce : nonce ≠ "") (hs_ne : s ≠ st.agent_address) (hInv : RegInv st) :
    RegInv (st.attributed_dialogue nonce m s).1
      ∧ (st.attributed_dialogue nonce m s).1.agent_address = st.agent_address
      ∧ (∀ Li Lc, dictGet st.incomplete_to_complete_dialogue_labels Li = some Lc →
          dictGet (st.attributed_dialogue nonce m s).1.incomplete_to_complete_dialogue_labels Li
            = some Lc)
      ∧ (∀ d, (st.attributed_dialogue nonce m s).2 = .ok (some d) →
          dictGet (st.attributed_dialogue nonce m s).1.dialogues_by_dialogue_label
            d.dialogue_label = some d) := by
  unfold Dialogues.attributed_dialogue
  by_cases h1 : m.dialogue_reference.1 = UNASSIGNED_DIALOGUE_REFERENCE
      ∧ m.dialogue_reference.2 = UNASSIGNED_DIALOGUE_REFERENCE
  · rw [if_pos h1]
    exact ⟨hInv, rfl, fun Li Lc h => h, fun d hd => absurd hd (by simp)⟩
  · rw [if_neg h1]
    by_cases h2 : m.dialogue_reference.1 ≠ UNASSIGNED_DIALOGUE_REFERENCE
        ∧ m.dialogue_reference.2 = UNASSIGNED_DIALOGUE_REFERENCE ∧ m.message_id = 1
    · rw [if_pos h2]
      obtain ⟨hI, hag, hpe⟩ := reginv_create_opponent_initiated nonce st s
        m.dialogue_reference (st.rules.role_from_first_message m) hnonce hs_ne hInv
      rcases hco : st.create_opponent_initiated nonce s m.dialogue_reference
          (st.rules.role_from_first_message m) with ⟨st1, res⟩
      rw [hco] at hI hag hpe
      rcases res with e | dlg
      · try simp only []
        exact ⟨hI, hag, hpe, fun d hd => absurd hd (by simp)⟩
      · try simp only []
        refine ⟨hI, hag, hpe, ?_⟩
        intro d hd
        simp only [Except.ok.injEq, Option.some.injEq] at hd
        subst hd
        exact create_opponent_initiated_ok_found nonce st s m.dialogue_reference
          (st.rules.role_from_first_message m) st1 dlg hco
    · rw [if_neg h2]
      obtain ⟨hI, hag, hpe⟩ := reginv_complete_dialogue_reference st m hInv
      rcases hcd : st.complete_dialogue_reference m with ⟨st1, oe⟩
      rw [hcd] at hI hag hpe
      rcases oe with _ | e
      · try simp only []
        rcases hgd : st1.get_dialogue m with e | od
        · try simp only []
          exact ⟨hI, hag, hpe, fun d hd => absurd hd (by simp)⟩
        · rcases od with _ | d0
          · try simp only []
            exact ⟨hI, hag, hpe, fun d hd => absurd hd (by simp)⟩
          · try simp only []
            refine ⟨hI, hag, hpe, ?_⟩
            intro d hd
            simp only [Except.ok.injEq, Option.some.injEq] at hd
            subst hd
            obtain ⟨L, hL⟩ := get_dialogue_found st1 m d0 hgd
            have hdl : d0.dialogue_label = L := hI.2.1 _ (dictGet_some_mem _ _ _ hL)
            rw [hdl]
            exact hL
      · try simp only []
        exact ⟨hI, hag, hpe, fun d hd => absurd hd (by simp)⟩

theorem reginv_registry_update (nonce : String) (st : Dialogues) (m : Message)
    (hnonce : nonce ≠ "") (hInv : RegInv st) :
    RegInv (Dialogues.update nonce st m).1
      ∧ (Dialogues.update nonce st m).1.agent_address = st.agent_address
      ∧ (∀ Li Lc, dictGet st.incomplete_to_complete_dialogue_labels Li = some Lc →
          dictGet (Dialogues.update nonce st m).1.incomplete_to_complete_dialogue_labels Li
            = some Lc) := by
  unfold Dialogues.update
  by_cases hagent : st.agent_address = ""
  · rw [if_pos hagent]
    exact ⟨hInv, rfl, fun Li Lc h => h⟩
  · rw [if_neg hagent]
    rcases hs : m.sender with _ | s
    · exact ⟨hInv, rfl, fun Li Lc h => h⟩
    · simp only []
      by_cases hsa : s = st.agent_address
      · rw [if_pos hsa]
        exact ⟨hInv, rfl, fun Li Lc h => h⟩
      · rw [if_neg hsa]
        obtain ⟨hI, hag, hpe, hfound⟩ := reginv_attributed nonce st m s hnonce hsa hInv
        rcases hat : st.attributed_dialogue nonce m s with ⟨st1, res⟩
        rw [hat] at hI hag hpe hfound
        rcases res with e | od
        · try simp only []
          exact ⟨hI, hag, hpe⟩
        · rcases od with _ | dialogue
          · try simp only []
            exact ⟨hI, hag, hpe⟩
          · try simp only []
            have hfd : dictGet st1.dialogues_by_dialogue_label dialogue.dialogue_label
                = some dialogue := hfound dialogue (by simp)
            rcases hu : dialogue.update m with e | d'
            · rcases e with t | t | t | t <;> (try simp only []) <;> exact ⟨hI, hag, hpe⟩
            · try simp only []
              refine ⟨?_, hag, hpe⟩
              exact reginv_writeback st1 dialogue.dialogue_label dialogue d' m hI hfd hu

theorem reginv_registry_create (nonce : String) (st : Dialogues) (counterparty : String)
    (performative : Nat) (hInv : RegInv st) :
    RegInv (Dialogues.create nonce st counterparty performative).1
      ∧ (Dialogues.create nonce st counterparty performative).1.agent_address
          = st.agent_address
      ∧ (∀ Li Lc, dictGet st.incomplete_to_complete_dialogue_labels Li = some Lc →
          dictGet
            (Dialogues.create nonce st counterparty
              performative).1.incomplete_to_complete_dialogue_labels Li = some Lc) := by
  unfold Dialogues.create
  by_cases hagent : st.agent_address = ""
  · rw [if_pos hagent]
    exact ⟨hInv, rfl, fun Li Lc h => h⟩
  · rw [if_neg hagent]
    simp only []
    obtain ⟨hI, hag, hpe⟩ := reginv_create_self_initiated st counterparty
      (Dialogues.initial_message nonce st counterparty performative).dialogue_reference
      (st.rules.role_from_first_message
        (Dialogues.initial_message nonce st counterparty performative)) hInv
    rcases hc : st.create_self_initiated counterparty
        (Dialogues.initial_message nonce st counterparty performative).dialogue_reference
        (st.rules.role_from_first_message
          (Dialogues.initial_message nonce st counterparty performative)) with ⟨st1, res⟩
    rw [hc] at hI hag hpe
    rcases res with e | dlg
    · try simp only []
      exact ⟨hI, hag, hpe⟩
    · try simp only []
      obtain ⟨_, hr2, hdlg, _, hfresh, hst1⟩ :=
        create_self_initiated_ok st counterparty _ _ dlg (by rw [hc])
      have hfd : dictGet st1.dialogues_by_dialogue_label dlg.dialogue_label = some dlg := by
        have h1 : st1 = (st.create_self_initiated counterparty
            (Dialogues.initial_message nonce st counterparty performative).dialogue_reference
            (st.rules.role_from_first_message
              (Dialogues.initial_message nonce st counterparty performative))).1 := by
          rw [hc]
        rw [h1, hst1]
        have hlbl : dlg.dialogue_label
            = (⟨(Dialogues.initial_message nonce st counterparty
                  performative).dialogue_reference,
                counterparty, st.agent_address⟩ : DialogueLabel) := by
          rw [hdlg]
          rfl
        rw [hlbl]
        exact dictGet_insert_self _ _ _
      rcases hu : dlg.update (Dialogues.initial_message nonce st counterparty performative)
        with e | dlg'
      · rcases e with t | t | t | t
        · try simp only []
          refine ⟨?_, hag, hpe⟩
          refine reginv_remove st1 dlg.dialogue_label hI ?_
          rw [hdlg]
          exact hr2
        · try simp only []
          exact ⟨hI, hag, hpe⟩
        · try simp only []
          exact ⟨hI, hag, hpe⟩
        · try simp only []
          exact ⟨hI, hag, hpe⟩
      · try simp only []
        refine ⟨?_, hag, hpe⟩
        exact reginv_writeback st1 dlg.dialogue_label dlg dlg' _ hI hfd hu

theorem reginv_init (agent : String) (rules : ProtocolRules) :
    RegInv (Dialogues.init agent rules) := by
  refine ⟨?_, ?_, ?_, ?_, ?_⟩ <;> simp [Dialogues.init]

theorem reginv_of_reachable (agent : String) (rules : ProtocolRules) (st : Dialogues)
    (h : RegistryReachable agent rules st) : RegInv st ∧ st.agent_address = agent := by
  induction h with
  | start => exact ⟨reginv_init agent rules, rfl⟩
  | createStep st nonce cp perf hn _ ih =>
    obtain ⟨hI, hag⟩ := ih
    obtain ⟨hI', hag', _⟩ := reginv_registry_create nonce st cp perf hI
    exact ⟨hI', hag'.trans hag⟩
  | updateStep st nonce m hn _ ih =>
    obtain ⟨hI, hag⟩ := ih
    obtain ⟨hI', hag', _⟩ := reginv_registry_update nonce st m hn hI
    exact ⟨hI', hag'.trans hag⟩

/-- C5: over every reachable registry state, a promoted incomplete label is
no longer a key of the label map while its complete form is (promotion is
one-way); both `update` and `create` steps preserve every existing promotion
entry (the promotion map is append-only); and a second inbound message
carrying an already-promoted complete reference is routed to the promoted
dialogue while the promotion map stays exactly as it was. -/
theorem C5_label_promotion (agent : String) (rules : ProtocolRules) (st : Dialogues)
    (h : RegistryReachable agent rules st) :
    (∀ Li Lc, dictGet st.incomplete_to_complete_dialogue_labels Li = some Lc →
        dictGet st.dialogues_by_dialogue_label Li = none
          ∧ (dictGet st.dialogues_by_dialogue_label Lc).isSome = true)
      ∧ (∀ nonce m, nonce ≠ "" → ∀ Li Lc,
          dictGet st.incomplete_to_complete_dialogue_labels Li = some Lc →
          dictGet (Dialogues.update nonce st m).1.incomplete_to_complete_dialogue_labels Li
            = some Lc)
      ∧ (∀ nonce cp p Li Lc,
          dictGet st.incomplete_to_complete_dialogue_labels Li = some Lc →
          dictGet (Dialogues.create nonce st cp p).1.incomplete_to_complete_dialogue_labels Li
            = some Lc)
      ∧ (∀ nonce m s Lc d, m.sender = some s → s ≠ st.agent_address →
          m.dialogue_reference.1 ≠ "" → m.dialogue_reference.2 ≠ "" →
          dictGet st.incomplete_to_complete_dialogue_labels
            ⟨(m.dialogue_reference.1, ""), s, st.agent_address⟩ = some Lc →
          Lc = ⟨m.dialogue_reference, s, st.agent_address⟩ →
          dictGet st.dialogues_by_dialogue_label Lc = some d →
          Dialogues.get_dialogue st m = .ok (some d)
            ∧ (Dialogues.update nonce st m).1.incomplete_to_complete_dialogue_labels
                = st.incomplete_to_complete_dialogue_labels) := by
  obtain ⟨hInv, _⟩ := reginv_of_reachable agent rules st h
  obtain ⟨hnd, hkey, haux, hpshape, hdisj⟩ := hInv
  refine ⟨?_, ?_, ?_, ?_⟩
  · intro Li Lc hget
    exact hdisj (Li, Lc) (dictGet_some_mem _ _ _ hget)
  · intro nonce m hn Li Lc hget
    exact (reginv_registry_update nonce st m hn
      ⟨hnd, hkey, haux, hpshape, hdisj⟩).2.2 Li Lc hget
  · intro nonce cp p Li Lc hget
    exact (reginv_registry_create nonce st cp p
      ⟨hnd, hkey, haux, hpshape, hdisj⟩).2.2 Li Lc hget
  · intro nonce m s Lc d hs hsne h1 h2 hpromoLi hLc hdlgLc
    subst hLc
    have hpromoLc : dictGet st.incomplete_to_complete_dialogue_labels
        ⟨m.dialogue_reference, s, st.agent_address⟩ = none := by
      rw [dictGet_eq_none_iff]
      intro q hq he
      have := (hpshape q hq).1
      rw [he] at this
      exact h2 this
    have hgd : Dialogues.get_dialogue st m = .ok (some d) := by
      unfold Dialogues.get_dialogue
      rw [hs]
      simp only [if_neg hsne]
      unfold Dialogues.get_latest_label Dialogues.get_dialogue_from_label
      rw [hpromoLc]
      simp only [Option.getD_some, Option.getD_none]
      rw [hdlgLc]
    refine ⟨hgd, ?_⟩
    unfold Dialogues.update
    by_cases hagent : st.agent_address = ""
    · rw [if_pos hagent]
    · rw [if_neg hagent]
      rw [hs]
      simp only [if_neg hsne]
      have hattr : st.attributed_dialogue nonce m s = (st, .ok (some d)) := by
        unfold Dialogues.attributed_dialogue
        rw [if_neg (by intro hc; exact h1 hc.1)]
        rw [if_neg (by intro hc; exact h2 hc.2.1)]
        have hcdr : st.complete_dialogue_reference m = (st, none) := by
          unfold Dialogues.complete_dialogue_reference
          rw [if_neg (by push_neg; exact ⟨h1, h2⟩)]
          rw [hs]
          simp only []
          rcases hdl0 : dictGet st.dialogues_by_dialogue_label
              ⟨(m.dialogue_reference.1, UNASSIGNED_DIALOGUE_REFERENCE), s, st.agent_address⟩
            with _ | dlg0
          · rfl
          · have hpromoLi' : dictGet st.incomplete_to_complete_dialogue_labels
                ⟨(m.dialogue_reference.1, UNASSIGNED_DIALOGUE_REFERENCE), s, st.agent_address⟩
                = some ⟨m.dialogue_reference, s, st.agent_address⟩ := hpromoLi
            rw [hpromoLi']
        rw [hcdr]
        simp only []
        rw [hgd]
      rw [hattr]
      simp only []
      rcases hu : d.update m with e | d'
      · rcases e with t | t | t | t <;> rfl
      · rfl

/-- Concrete instance of the C5 theorem: in the registry reached by the
opponent-initiated creation of `c1_st1`, the promoted incomplete label is no
longer a key of the label map while its complete form is. -/
theorem C5_witness :
    dictGet c1_st1.dialogues_by_dialogue_label ⟨("r", ""), "O", "O"⟩ = none
      ∧ (dictGet c1_st1.dialogues_by_dialogue_label ⟨("r", "n1"), "O", "O"⟩).isSome = true :=
  (C5_label_promotion "A" exampleRules c1_st1
    (RegistryReachable.updateStep (Dialogues.init "A" exampleRules) "n1" c1_m1 (by decide)
      RegistryReachable.start)).1 ⟨("r", ""), "O", "O"⟩ ⟨("r", "n1"), "O", "O"⟩ rfl
